import Mathlib

/-!
Verification of the osdu-viz schema-to-graph extractor and layout engine.

This development shallowly embeds `src/utils/graphBuilder.ts` and
`src/utils/layout.ts`.  JSON values are modelled by the mutual inductive
family `Json`/`JsonArr`/`JsonObj` (object fields kept in insertion order,
the iteration order of `Object.entries` for the non-numeric keys used by
OSDU schemas).  JavaScript property access, truthiness, iteration and
template stringification are modelled explicitly, so that the places where
the JavaScript code would throw a `TypeError` are modelled by
`Except.error`.  The recursive schema walks carry a structural fuel
argument initialised with `jsize` of the schema; `jsize` strictly
decreases when moving to any descendant, so the fuel can never be
exhausted and only serves to make the definitions structurally recursive
and kernel-reducible.
-/

namespace OsduViz

mutual
/-- JSON values as produced by `JSON.parse`. -/
inductive Json where
  | null
  | bool (b : Bool)
  | num (n : Int)
  | str (s : String)
  | arr (elems : JsonArr)
  | obj (fields : JsonObj)
deriving Repr

/-- The elements of a JSON array. -/
inductive JsonArr where
  | nil
  | cons (hd : Json) (tl : JsonArr)
deriving Repr

/-- The fields of a JSON object, in insertion order. -/
inductive JsonObj where
  | nil
  | cons (k : String) (v : Json) (tl : JsonObj)
deriving Repr
end

mutual
def Json.decEq : (a b : Json) → Decidable (a = b)
  | .null, .null => isTrue rfl
  | .bool a, .bool b =>
      match decEq a b with
      | isTrue h => isTrue (by rw [h])
      | isFalse h => isFalse (by intro hc; cases hc; exact h rfl)
  | .num a, .num b =>
      match decEq a b with
      | isTrue h => isTrue (by rw [h])
      | isFalse h => isFalse (by intro hc; cases hc; exact h rfl)
  | .str a, .str b =>
      match decEq a b with
      | isTrue h => isTrue (by rw [h])
      | isFalse h => isFalse (by intro hc; cases hc; exact h rfl)
  | .arr a, .arr b =>
      match JsonArr.decEq a b with
      | isTrue h => isTrue (by rw [h])
      | isFalse h => isFalse (by intro hc; cases hc; exact h rfl)
  | .obj a, .obj b =>
      match JsonObj.decEq a b with
      | isTrue h => isTrue (by rw [h])
      | isFalse h => isFalse (by intro hc; cases hc; exact h rfl)
  | .null, .bool _ => isFalse (by intro h; cases h)
  | .null, .num _ => isFalse (by intro h; cases h)
  | .null, .str _ => isFalse (by intro h; cases h)
  | .null, .arr _ => isFalse (by intro h; cases h)
  | .null, .obj _ => isFalse (by intro h; cases h)
  | .bool _, .null => isFalse (by intro h; cases h)
  | .bool _, .num _ => isFalse (by intro h; cases h)
  | .bool _, .str _ => isFalse (by intro h; cases h)
  | .bool _, .arr _ => isFalse (by intro h; cases h)
  | .bool _, .obj _ => isFalse (by intro h; cases h)
  | .num _, .null => isFalse (by intro h; cases h)
  | .num _, .bool _ => isFalse (by intro h; cases h)
  | .num _, .str _ => isFalse (by intro h; cases h)
  | .num _, .arr _ => isFalse (by intro h; cases h)
  | .num _, .obj _ => isFalse (by intro h; cases h)
  | .str _, .null => isFalse (by intro h; cases h)
  | .str _, .bool _ => isFalse (by intro h; cases h)
  | .str _, .num _ => isFalse (by intro h; cases h)
  | .str _, .arr _ => isFalse (by intro h; cases h)
  | .str _, .obj _ => isFalse (by intro h; cases h)
  | .arr _, .null => isFalse (by intro h; cases h)
  | .arr _, .bool _ => isFalse (by intro h; cases h)
  | .arr _, .num _ => isFalse (by intro h; cases h)
  | .arr _, .str _ => isFalse (by intro h; cases h)
  | .arr _, .obj _ => isFalse (by intro h; cases h)
  | .obj _, .null => isFalse (by intro h; cases h)
  | .obj _, .bool _ => isFalse (by intro h; cases h)
  | .obj _, .num _ => isFalse (by intro h; cases h)
  | .obj _, .str _ => isFalse (by intro h; cases h)
  | .obj _, .arr _ => isFalse (by intro h; cases h)

def JsonArr.decEq : (a b : JsonArr) → Decidable (a = b)
  | .nil, .nil => isTrue rfl
  | .cons h1 t1, .cons h2 t2 =>
      match Json.decEq h1 h2, JsonArr.decEq t1 t2 with
      | isTrue e1, isTrue e2 => isTrue (by rw [e1, e2])
      | isFalse e1, _ => isFalse (by intro hc; cases hc; exact e1 rfl)
      | _, isFalse e2 => isFalse (by intro hc; cases hc; exact e2 rfl)
  | .nil, .cons _ _ => isFalse (by intro h; cases h)
  | .cons _ _, .nil => isFalse (by intro h; cases h)

def JsonObj.decEq : (a b : JsonObj) → Decidable (a = b)
  | .nil, .nil => isTrue rfl
  | .cons k1 v1 t1, .cons k2 v2 t2 =>
      match decEq k1 k2, Json.decEq v1 v2, JsonObj.decEq t1 t2 with
      | isTrue e0, isTrue e1, isTrue e2 => isTrue (by rw [e0, e1, e2])
      | isFalse e0, _, _ => isFalse (by intro hc; cases hc; exact e0 rfl)
      | _, isFalse e1, _ => isFalse (by intro hc; cases hc; exact e1 rfl)
      | _, _, isFalse e2 => isFalse (by intro hc; cases hc; exact e2 rfl)
  | .nil, .cons _ _ _ => isFalse (by intro h; cases h)
  | .cons _ _ _, .nil => isFalse (by intro h; cases h)
end

instance : DecidableEq Json := Json.decEq
instance : DecidableEq JsonArr := JsonArr.decEq
instance : DecidableEq JsonObj := JsonObj.decEq

mutual
/-- Structural size of a JSON value; strictly larger than the size of any
descendant, hence an upper bound for the nesting depth. -/
def jsize : Json → Nat
  | .null => 1
  | .bool _ => 1
  | .num _ => 1
  | .str _ => 1
  | .arr xs => 1 + jsizeA xs
  | .obj fs => 1 + jsizeO fs

def jsizeA : JsonArr → Nat
  | .nil => 0
  | .cons h t => 1 + jsize h + jsizeA t

def jsizeO : JsonObj → Nat
  | .nil => 0
  | .cons _ v t => 1 + jsize v + jsizeO t
end

/-- The fields of a JSON object as a Lean list. -/
def JsonObj.toList : JsonObj → List (String × Json)
  | .nil => []
  | .cons k v t => (k, v) :: JsonObj.toList t

/-- The elements of a JSON array as a Lean list. -/
def JsonArr.toList : JsonArr → List Json
  | .nil => []
  | .cons h t => h :: JsonArr.toList t

/-- Build a JSON object from a list of fields (for concrete examples). -/
def JsonObj.ofList : List (String × Json) → JsonObj
  | [] => .nil
  | (k, v) :: rest => .cons k v (JsonObj.ofList rest)

/-- Build a JSON array from a list of elements (for concrete examples). -/
def JsonArr.ofList : List Json → JsonArr
  | [] => .nil
  | x :: rest => .cons x (JsonArr.ofList rest)

/-- Convenience constructor for object literals. -/
def jobj (l : List (String × Json)) : Json := .obj (JsonObj.ofList l)

/-- Convenience constructor for array literals. -/
def jarr (l : List Json) : Json := .arr (JsonArr.ofList l)

namespace Json

/-- JavaScript truthiness of a JSON value. -/
def truthy : Json → Bool
  | .null => false
  | .bool b => b
  | .num n => n != 0
  | .str s => s != ""
  | .arr _ => true
  | .obj _ => true

end Json

/-- First-match lookup in an object's field list. -/
def jsGetF (fields : List (String × Json)) (k : String) : Option Json :=
  match fields.find? (fun kv => kv.1 == k) with
  | some kv => some kv.2
  | none => none

/-- Non-throwing property read, used where the base is already known to be
an array or an object (after the `!obj || typeof obj !== "object"` guard):
objects yield their field, everything else yields `undefined` (`none`). -/
def jsGet (o : Json) (k : String) : Option Json :=
  match o with
  | .obj fs => jsGetF fs.toList k
  | _ => none

/-- Property read on an arbitrary value: reading a property of `null`
throws a `TypeError` in JavaScript; primitives yield `undefined`. -/
def jsAccess (o : Json) (k : String) : Except String (Option Json) :=
  match o with
  | .null => .error "TypeError: cannot read properties of null"
  | .obj fs => .ok (jsGetF fs.toList k)
  | _ => .ok none

/-- Optional chaining `o?.k`: `null` short-circuits to `undefined`. -/
def jsOptChain (o : Json) (k : String) : Option Json :=
  match o with
  | .null => none
  | .obj fs => jsGetF fs.toList k
  | _ => none

/-- Truthiness of a possibly-`undefined` value. -/
def truthyO : Option Json → Bool
  | none => false
  | some v => v.truthy

/-- `typeof v === "object"` for a truthy value: arrays and objects
(`null` is excluded beforehand by truthiness at every use site). -/
def jsWalkable : Json → Bool
  | .arr _ => true
  | .obj _ => true
  | _ => false

/-- `Object.entries`: field list of an object, index-keyed elements of an
array. -/
def jsEntries : Json → List (String × Json)
  | .obj fs => fs.toList
  | .arr xs => (xs.toList.enum.map fun (i, x) => (toString i, x))
  | _ => []

/-- `for (const r of v)`: arrays iterate their elements, strings iterate
their characters (as one-character strings), anything else throws. -/
def jsIterate : Json → Except String (List Json)
  | .arr xs => .ok xs.toList
  | .str s => .ok (s.data.map fun c => Json.str c.toString)
  | _ => .error "TypeError: value is not iterable"

/-- Template stringification (`String(v)`) with structural fuel. -/
def jsToStrF : Nat → Json → String
  | 0, _ => ""
  | _ + 1, .null => "null"
  | _ + 1, .bool true => "true"
  | _ + 1, .bool false => "false"
  | _ + 1, .num n => toString n
  | _ + 1, .str s => s
  | fuel + 1, .arr xs =>
      String.intercalate ","
        (xs.toList.map fun x => if x = Json.null then "" else jsToStrF fuel x)
  | _ + 1, .obj _ => "[object Object]"

/-- `String(v)` / template-literal interpolation of a JSON value. -/
def jsToStr (j : Json) : String := jsToStrF (jsize j) j

/-- Interpolation of a possibly-`undefined` value (`${undefined}`). -/
def jsToStrO : Option Json → String
  | none => "undefined"
  | some v => jsToStr v

/-- `String.prototype.toLowerCase`, character by character (ASCII; OSDU
identifiers are ASCII). -/
def jsToLower (s : String) : String :=
  String.mk (s.data.map Char.toLower)

/-- `String.prototype.trim` (ASCII whitespace). -/
def jsTrim (s : String) : String :=
  String.mk (((s.data.dropWhile Char.isWhitespace).reverse.dropWhile
    Char.isWhitespace).reverse)

/-- Substring test (`String.prototype.includes`). -/
def strContains (s sub : String) : Bool :=
  (List.range (s.data.length + 1)).any fun i => sub.data.isPrefixOf (s.data.drop i)

/-- Suffix test (`String.prototype.endsWith`). -/
def strEndsWith (s sub : String) : Bool :=
  sub.data.isSuffixOf s.data

/-- Split a character list on a separator character, preserving empty
segments, as `String.prototype.split` does for a one-character separator. -/
def splitChar (c : Char) : List Char → List (List Char)
  | [] => [[]]
  | a :: rest =>
      if a = c then [] :: splitChar c rest
      else
        match splitChar c rest with
        | [] => [[a]]
        | h :: t => (a :: h) :: t

/-- `s.split(sep)` for a one-character separator. -/
def jsSplit (c : Char) (s : String) : List String :=
  (splitChar c s.data).map String.mk

/-- Character-level join used by `Array.prototype.join`. -/
def joinChar (c : Char) : List String → List Char
  | [] => []
  | [s] => s.data
  | s :: rest => s.data ++ c :: joinChar c rest

/-- `parts.join(sep)` for a one-character separator. -/
def jsJoin (c : Char) (parts : List String) : String :=
  String.mk (joinChar c parts)

/-- Replace the first occurrence of `pat` (as `String.prototype.replace`
with a string pattern does). -/
def replFirst (pat repl : List Char) : List Char → List Char
  | [] => if pat = [] then repl else []
  | a :: rest =>
      if pat.isPrefixOf (a :: rest) then repl ++ (a :: rest).drop pat.length
      else a :: replFirst pat repl rest

/-- `s.replace(pat, repl)` with a plain-string pattern: first match only. -/
def jsReplaceFirst (s pat repl : String) : String :=
  String.mk (replFirst pat.data repl.data s.data)

/-- `id.replace(/[^a-zA-Z0-9_\-:.]/g, "_")`, character by character. -/
def normChar (c : Char) : Char :=
  if ('a' ≤ c && c ≤ 'z') || ('A' ≤ c && c ≤ 'Z') || ('0' ≤ c && c ≤ '9')
      || c = '_' || c = '-' || c = ':' || c = '.' then c
  else '_'

/-- `normalizeId` from `graphBuilder.ts`. -/
def normalizeId (id : String) : String :=
  String.mk (id.data.map normChar)

/-- `s.replace(/^\.\//, "")`: strip one leading `./`. -/
def stripDotSlash (s : String) : String :=
  if "./".data.isPrefixOf s.data then String.mk (s.data.drop 2) else s

/-- `s.replace(/^\//, "")`: strip one leading `/`. -/
def stripSlash (s : String) : String :=
  if "/".data.isPrefixOf s.data then String.mk (s.data.drop 1) else s

/-- `s.replace(/^[.]{2}\//, "")`: strip one leading `../`. -/
def stripDotDotSlash (s : String) : String :=
  if "../".data.isPrefixOf s.data then String.mk (s.data.drop 3) else s

/-- `r.replace(/^\.\//, "").replace(/^\//, "").replace(/^[.]{2}\//, "")`. -/
def stripRelPrefixes (r : String) : String :=
  stripDotDotSlash (stripSlash (stripDotSlash r))

/-- `s.replace(/([A-Z])/g, "-$1")`: a dash before every ASCII capital. -/
def insertDashes (s : String) : String :=
  String.mk (s.data.flatMap fun c => if c.isUpper then ['-', c] else [c])

/-- First-occurrence deduplication with an accumulator of already-seen
elements: the iteration order of a JavaScript `Set` built from a list. -/
def dedupFirstAux {α : Type} [DecidableEq α] (seen : List α) : List α → List α
  | [] => []
  | x :: rest =>
      if x ∈ seen then dedupFirstAux seen rest
      else x :: dedupFirstAux (x :: seen) rest

/-- `Array.from(new Set(l))`. -/
def dedupFirst {α : Type} [DecidableEq α] (l : List α) : List α :=
  dedupFirstAux [] l

/-- Decidable equality for `Except` results. -/
instance {ε α : Type} [DecidableEq ε] [DecidableEq α] : DecidableEq (Except ε α) := fun a b =>
  match a, b with
  | .ok x, .ok y =>
      if h : x = y then isTrue (by rw [h])
      else isFalse (by intro hc; cases hc; exact h rfl)
  | .error x, .error y =>
      if h : x = y then isTrue (by rw [h])
      else isFalse (by intro hc; cases hc; exact h rfl)
  | .ok _, .error _ => isFalse (by intro h; cases h)
  | .error _, .ok _ => isFalse (by intro h; cases h)

/-- Monadic `map` over `Except` that stops at the first error, modelling a
JavaScript loop interrupted by an exception. -/
def mapME {ε α β : Type} (f : α → Except ε β) : List α → Except ε (List β)
  | [] => .ok []
  | x :: xs => do
      let y ← f x
      let ys ← mapME f xs
      pure (y :: ys)

/-- `Array.prototype.filter` with a predicate that can throw. -/
def filterME {ε α : Type} (p : α → Except ε Bool) : List α → Except ε (List α)
  | [] => .ok []
  | x :: xs => do
      let b ← p x
      let rest ← filterME p xs
      pure (if b then x :: rest else rest)

/-- `Array.prototype.find` with a predicate that can throw; an empty list
never evaluates the predicate. -/
def findME {ε α : Type} (p : α → Except ε Bool) : List α → Except ε (Option α)
  | [] => .ok none
  | x :: xs => do
      let b ← p x
      if b then pure (some x) else findME p xs

/-! ## `graphBuilder.ts`: the collection walks -/

/-- One recorded property (`CollectResult["properties"]` entries carry
`required`/`depth`; `collectPropsOnly` entries do not). -/
structure PropEntry where
  name : String
  type : Option Json
  description : Option Json
  required : Option Bool
  depth : Option Nat
deriving DecidableEq, Repr

/-- One recorded relation (`kind`, `target`, discriminator). -/
structure RelEntry where
  kind : String
  target : String
  rtype : String
deriving DecidableEq, Repr

/-- Result of `collectFromSchema`. -/
structure CollectResult where
  properties : List PropEntry
  relations : List RelEntry
  refs : List String
deriving DecidableEq, Repr

/-- Concatenation of collection results, in push order. -/
def CollectResult.append (a b : CollectResult) : CollectResult :=
  ⟨a.properties ++ b.properties, a.relations ++ b.relations, a.refs ++ b.refs⟩

/-- The empty collection result. -/
def CollectResult.empty : CollectResult := ⟨[], [], []⟩

/-- `v.type || (Array.isArray(v.type) ? v.type.join("|") : v.$ref ?
`$ref:${v.$ref}` : undefined)` — note that the `Array.isArray` branch is
only reached when `v.type` is falsy, and a falsy value is never an array. -/
def propTypeOf (v : Json) : Except String (Option Json) := do
  let t ← jsAccess v "type"
  if truthyO t then pure t
  else
    match t with
    | some (Json.arr xs) =>
        pure (some (Json.str (String.intercalate "|"
          (xs.toList.map fun x => if x = Json.null then "" else jsToStr x))))
    | _ => do
      let r ← jsAccess v "$ref"
      if truthyO r then pure (some (Json.str ("$ref:" ++ jsToStrO r)))
      else pure none

/-- The `$ref` recording of lines 23–26: a truthy string `$ref` pushes one
ref and one relation. -/
def wcRefPart (o : Json) : CollectResult :=
  match jsGet o "$ref" with
  | some (Json.str s) =>
      if s ≠ "" then ⟨[], [⟨"$ref", s, "ref"⟩], [s]⟩ else CollectResult.empty
  | _ => CollectResult.empty

/-- The `x-osdu-relationship` recording of lines 28–33: iterate the truthy
extension value (throwing if it is not iterable) and record one relation
per entry. -/
def wcRelPart (o : Json) (path : List String) : Except String CollectResult :=
  match jsGet o "x-osdu-relationship" with
  | some xo =>
    if xo.truthy then do
      let items ← jsIterate xo
      let tgt := (fun s => if s = "" then "(root)" else s) (jsJoin '.' path)
      let rels ← mapME (fun r => do
          let g ← jsAccess r "GroupType"
          let e ← jsAccess r "EntityType"
          pure (⟨jsToStrO g ++ "--" ++ jsToStrO e, tgt, "relationship"⟩ : RelEntry))
        items
      pure (⟨[], rels, []⟩ : CollectResult)
    else pure CollectResult.empty
  | none => pure CollectResult.empty

/-- The `properties` loop of lines 35–44, parameterized by the recursive
walk: record an entry per key/value pair, then recurse into the value. -/
def wcPropsPart (walkF : Json → List String → Except String CollectResult)
    (rootRequired : List Json) (o : Json) (path : List String) :
    Except String CollectResult :=
  match jsGet o "properties" with
  | some p =>
    if p.truthy && jsWalkable p then do
      let parts ← mapME (fun kv => do
          let t ← propTypeOf kv.2
          let d ← jsAccess kv.2 "description"
          let name := jsJoin '.' (path ++ [kv.1])
          let depth := (jsSplit '.' name).length
          let required := depth == 1 && rootRequired.contains (Json.str kv.1)
          let sub ← walkF kv.2 (path ++ [kv.1])
          pure (CollectResult.append ⟨[⟨name, t, d, some required, some depth⟩], [], []⟩ sub))
        (jsEntries p)
      pure (parts.foldr CollectResult.append CollectResult.empty)
    else pure CollectResult.empty
  | none => pure CollectResult.empty

/-- The `allOf`/`anyOf`/`oneOf` recursion of lines 46–54: walk every
element of an array-valued combinator with the SAME path. -/
def wcComboPart (walkF : Json → List String → Except String CollectResult)
    (o : Json) (key : String) (path : List String) : Except String CollectResult :=
  match jsGet o key with
  | some (Json.arr xs) => do
      let parts ← mapME (fun x => walkF x path) xs.toList
      pure (parts.foldr CollectResult.append CollectResult.empty)
  | _ => pure CollectResult.empty

/-- The `items` recursion of line 55: walk a truthy `items` with the same
path. -/
def wcItemsPart (walkF : Json → List String → Except String CollectResult)
    (o : Json) (path : List String) : Except String CollectResult :=
  match jsGet o "items" with
  | some it => if it.truthy then walkF it path else pure CollectResult.empty
  | none => pure CollectResult.empty

/-- The `walk` of `collectFromSchema` (lines 20–56 of `graphBuilder.ts`),
with structural fuel. -/
def wcWalk (rootRequired : List Json) : Nat → Json → List String → Except String CollectResult
  | 0, _, _ => .error "maximum recursion depth exceeded"
  | fuel + 1, o, path =>
    -- `if (!obj || typeof obj !== "object") return`: only arrays and
    -- objects are walked (null is falsy, primitives fail the typeof test).
    if !(jsWalkable o) then .ok CollectResult.empty
    else do
      let relPart ← wcRelPart o path
      let propPart ← wcPropsPart (wcWalk rootRequired fuel) rootRequired o path
      let allOfPart ← wcComboPart (wcWalk rootRequired fuel) o "allOf" path
      let anyOfPart ← wcComboPart (wcWalk rootRequired fuel) o "anyOf" path
      let oneOfPart ← wcComboPart (wcWalk rootRequired fuel) o "oneOf" path
      let itemsPart ← wcItemsPart (wcWalk rootRequired fuel) o path
      pure (CollectResult.append (wcRefPart o) (CollectResult.append relPart
        (CollectResult.append propPart (CollectResult.append allOfPart
          (CollectResult.append anyOfPart (CollectResult.append oneOfPart itemsPart))))))

/-- `Array.isArray(schema?.required) ? schema.required : []`. -/
def rootRequiredOf (schema : Json) : List Json :=
  match jsOptChain schema "required" with
  | some (Json.arr xs) => xs.toList
  | _ => []

/-- `collectFromSchema` (lines 14–60 of `graphBuilder.ts`). -/
def collectFromSchema (schema : Json) : Except String CollectResult :=
  wcWalk (rootRequiredOf schema) (jsize schema) schema []

/-- The `properties` loop of `collectPropsOnly` (lines 66–72),
parameterized by the recursive walk. -/
def cpPropsPart (walkF : Json → List String → Except String (List PropEntry))
    (o : Json) (path : List String) : Except String (List PropEntry) :=
  match jsGet o "properties" with
  | some p =>
    if p.truthy && jsWalkable p then do
      let parts ← mapME (fun kv => do
          let t ← propTypeOf kv.2
          let d ← jsAccess kv.2 "description"
          let name := jsJoin '.' (path ++ [kv.1])
          let sub ← walkF kv.2 (path ++ [kv.1])
          pure ((⟨name, t, d, none, none⟩ : PropEntry) :: sub))
        (jsEntries p)
      pure parts.flatten
    else pure []
  | none => pure []

/-- The combinator recursion of `collectPropsOnly` (lines 73–75). -/
def cpComboPart (walkF : Json → List String → Except String (List PropEntry))
    (o : Json) (key : String) (path : List String) : Except String (List PropEntry) :=
  match jsGet o key with
  | some (Json.arr xs) => do
      let parts ← mapME (fun x => walkF x path) xs.toList
      pure parts.flatten
  | _ => pure []

/-- The `items` recursion of `collectPropsOnly` (line 76). -/
def cpItemsPart (walkF : Json → List String → Except String (List PropEntry))
    (o : Json) (path : List String) : Except String (List PropEntry) :=
  match jsGet o "items" with
  | some it => if it.truthy then walkF it path else pure []
  | none => pure []

/-- The `walk` of `collectPropsOnly` (lines 62–80), with structural fuel. -/
def cpWalk : Nat → Json → List String → Except String (List PropEntry)
  | 0, _, _ => .error "maximum recursion depth exceeded"
  | fuel + 1, o, path =>
    if !(jsWalkable o) then .ok []
    else do
      let propPart ← cpPropsPart (cpWalk fuel) o path
      let allOfPart ← cpComboPart (cpWalk fuel) o "allOf" path
      let anyOfPart ← cpComboPart (cpWalk fuel) o "anyOf" path
      let oneOfPart ← cpComboPart (cpWalk fuel) o "oneOf" path
      let itemsPart ← cpItemsPart (cpWalk fuel) o path
      pure (propPart ++ allOfPart ++ anyOfPart ++ oneOfPart ++ itemsPart)

/-- `collectPropsOnly` (lines 62–80 of `graphBuilder.ts`). -/
def collectPropsOnly (schema : Json) : Except String (List PropEntry) :=
  cpWalk (jsize schema) schema []

/-! ## ERD relationship extraction -/

/-- One extracted ERD relationship.  `targetEntity` is the raw
`(r.EntityType as string) || ""` value: the direct-property branch forces
it to be a string (it calls `toLowerCase` on it), the array-items branch
stores it unchecked. -/
structure ErdRel where
  sourceProperty : String
  targetEntity : Json
  relationshipType : String
  cardinality : String
  isConnectable : Bool
  groupType : Option Json
deriving DecidableEq, Repr

/-- The relationship-type / connectable classification of lines 113–139 of
`graphBuilder.ts`: consecutive independent `if` statements, each of which
overwrites `relationshipType`, while `isConnectable` is set by the
connection check and never reset. -/
def classifyRel (propertyName targetEntity : String) : String × Bool :=
  let p := jsToLower propertyName
  let t := jsToLower targetEntity
  let rt0 := "references"
  let rt1 := if strContains p "id" then "references" else rt0
  let conn := strContains p "connection" || strContains t "connection" || strContains p "connect"
  let rt2 := if conn then "connects to" else rt1
  let rt3 := if strContains t "component" || strContains p "component" then "contains" else rt2
  let rt4 := if strContains p "parent" || strContains p "assembly" then "part of" else rt3
  (rt4, conn)

/-- The direct-property branch of `walkForErd` (lines 106–150): an
`x-osdu-relationship` at a non-empty path yields one classified
relationship per entry. -/
def ewPart1 (o : Json) (path : List String) : Except String (List ErdRel) :=
  match jsGet o "x-osdu-relationship" with
  | some xo =>
    if xo.truthy && path.length > 0 then do
      let items ← jsIterate xo
      let propertyName := path.getLastD ""
      let card := if jsGet o "type" = some (Json.str "array")
        then "one-to-many" else "one-to-one"
      mapME (fun r => do
          let e ← jsAccess r "EntityType"
          let g ← jsAccess r "GroupType"
          let te : Json := if truthyO e then e.getD Json.null else Json.str ""
          -- `targetEntity.toLowerCase()` is evaluated by the component
          -- check unconditionally, so a truthy non-string `EntityType`
          -- always throws here.
          let teStr ←
            match te with
            | Json.str s => Except.ok s
            | _ => Except.error "TypeError: toLowerCase is not a function"
          let rc := classifyRel propertyName teStr
          let gt : Option Json := if truthyO g then g else none
          pure (⟨propertyName, Json.str teStr, rc.1, card, rc.2, gt⟩ : ErdRel))
        items
    else pure []
  | none => pure []

/-- The array-items branch of `walkForErd` (lines 152–177): a
connection/component/node-named array whose `items` carry the extension
yields `"contains"` relationships. -/
def ewPart2 (o : Json) (path : List String) : Except String (List ErdRel) :=
  match jsGet o "items" with
  | some it =>
    if jsGet o "type" = some (Json.str "array") && it.truthy && path.length > 0 then
      let propertyName := path.getLastD ""
      let pl := jsToLower propertyName
      if strContains pl "connection" || strContains pl "component"
          || strContains pl "node" then
        match jsGet it "x-osdu-relationship" with
        | some xo2 =>
          if xo2.truthy then do
            let items2 ← jsIterate xo2
            mapME (fun r => do
                let e ← jsAccess r "EntityType"
                let g ← jsAccess r "GroupType"
                let te : Json := if truthyO e then e.getD Json.null else Json.str ""
                let gt : Option Json := if truthyO g then g else none
                pure (⟨propertyName, te, "contains", "one-to-many", true, gt⟩ : ErdRel))
              items2
          else pure []
        | none => pure []
      else pure []
    else pure []
  | none => pure []

/-- The `properties` recursion of `walkForErd` (lines 179–183). -/
def ewPropsPart (walkF : Json → List String → Except String (List ErdRel))
    (o : Json) (path : List String) : Except String (List ErdRel) :=
  match jsGet o "properties" with
  | some p =>
    if p.truthy && jsWalkable p then do
      let parts ← mapME (fun kv => walkF kv.2 (path ++ [kv.1])) (jsEntries p)
      pure parts.flatten
    else pure []
  | none => pure []

/-- The combinator recursion of `walkForErd` (lines 185–193). -/
def ewComboPart (walkF : Json → List String → Except String (List ErdRel))
    (o : Json) (key : String) (path : List String) : Except String (List ErdRel) :=
  match jsGet o key with
  | some (Json.arr xs) => do
      let parts ← mapME (fun x => walkF x path) xs.toList
      pure parts.flatten
  | _ => pure []

/-- The `items` recursion of `walkForErd` (line 194). -/
def ewItemsPart (walkF : Json → List String → Except String (List ErdRel))
    (o : Json) (path : List String) : Except String (List ErdRel) :=
  match jsGet o "items" with
  | some it => if it.truthy then walkF it path else pure []
  | none => pure []

/-- The `walkForErd` of `extractErdRelationships` (lines 103–195), with
structural fuel. -/
def ewWalk : Nat → Json → List String → Except String (List ErdRel)
  | 0, _, _ => .error "maximum recursion depth exceeded"
  | fuel + 1, o, path =>
    if !(jsWalkable o) then .ok []
    else do
      let part1 ← ewPart1 o path
      let part2 ← ewPart2 o path
      let part3 ← ewPropsPart (ewWalk fuel) o path
      let part4 ← ewComboPart (ewWalk fuel) o "allOf" path
      let part5 ← ewComboPart (ewWalk fuel) o "anyOf" path
      let part6 ← ewComboPart (ewWalk fuel) o "oneOf" path
      let part7 ← ewItemsPart (ewWalk fuel) o path
      pure (part1 ++ part2 ++ part3 ++ part4 ++ part5 ++ part6 ++ part7)

/-- `extractErdRelationships` (lines 83–199 of `graphBuilder.ts`); the
`schemaTitle` parameter is unused, as in the source. -/
def extractErdRelationships (schema : Json) (schemaTitle : String) :
    Except String (List ErdRel) :=
  ewWalk (jsize schema) schema []


/-! ## `graphBuilder.ts`: graph construction -/

/-- The `data` payload of a graph node.  Fields that a given construction
site does not set are `none` (legacy-mode nodes carry no
`erdRelationships`, `nodeType` or `category` keys at all). -/
structure NodeData where
  label : Json
  subtitle : String
  properties : List PropEntry
  relations : List RelEntry
  erdRelationships : Option (List ErdRel)
  filePath : Option String
  schemaId : Option Json
  schema : Option Json
  nodeType : Option String
  category : Option String
deriving DecidableEq, Repr

/-- A react-flow node as produced by the extractor. -/
structure Node where
  id : String
  position : ℚ × ℚ
  data : NodeData
  type : String
deriving DecidableEq, Repr

/-- The `data` payload of an edge. -/
structure EdgeData where
  type : Option String
  sourceProperty : Option String
  relationshipType : Option String
  cardinality : Option String
  isConnectable : Option Bool
  label : Option String
deriving DecidableEq, Repr

/-- The empty edge payload (`{}`). -/
def EdgeData.empty : EdgeData := ⟨none, none, none, none, none, none⟩

/-- A react-flow edge as produced by the extractor. -/
structure Edge where
  id : String
  source : String
  target : String
  data : Option EdgeData
  label : Option String
  sourceHandle : Option String
  targetHandle : Option String
deriving DecidableEq, Repr

/-- The extractor's result. -/
structure Graph where
  nodes : List Node
  edges : List Edge
deriving DecidableEq, Repr

/-- `SchemaModel` of `types.ts` (the optional `version` plays no role in
graph building). -/
structure SchemaModel where
  id : String
  title : String
  schema : Json
  path : String
deriving DecidableEq, Repr

/-- `GraphBuildOptions` of `types.ts`; the index maps file paths to parsed
schemas, in insertion order. -/
structure GraphBuildOptions where
  filter : Option String
  index : Option (List (String × Json))
  erdView : Option Bool
deriving DecidableEq, Repr

/-- The per-edge cleanup in `validateEdges`: keep id/source/target, default
the data to `{}`, keep a truthy label, keep explicitly-set handles. -/
def cleanEdge (e : Edge) : Edge :=
  { id := e.id, source := e.source, target := e.target,
    data := some (e.data.getD EdgeData.empty),
    label := match e.label with
      | some l => if l ≠ "" then some l else none
      | none => none,
    sourceHandle := e.sourceHandle,
    targetHandle := e.targetHandle }

/-- `validateEdges` (lines 431–488 of `graphBuilder.ts`): drop edges with
falsy or unknown `source`/`target`, then normalize each surviving edge. -/
def validateEdges (edges : List Edge) (nodes : List Node) : List Edge :=
  let nodeIds := nodes.map (·.id)
  (edges.filter fun e =>
      e.source ≠ "" && e.target ≠ "" && nodeIds.contains e.source
        && nodeIds.contains e.target).map cleanEdge

/-- `inferCategory` (lines 250–257): called both on file paths (strings)
and on raw `$id` values, hence the `Json` argument; a truthy non-string
argument throws at `from.toLowerCase()`. -/
def inferCategory (from0 : Option Json) : Except String (Option String) :=
  match from0 with
  | none => .ok none
  | some v =>
    if !v.truthy then .ok none
    else
      match v with
      | Json.str s0 =>
        let s := jsToLower s0
        .ok (if strContains s "/master-data/" || strContains s "master-data" then
            some "master-data"
          else if strContains s "/reference-data/" || strContains s "reference-data" then
            some "reference-data"
          else if strContains s "/work-product-component/"
              || strContains s "work-product-component" then
            some "work-product-component"
          else none)
      | _ => .error "TypeError: toLowerCase is not a function"

/-- `(model.schema && model.schema.$id) || undefined`. -/
def mainSchemaIdOf (schema : Json) : Option Json :=
  let v : Option Json := if schema.truthy then jsGet schema "$id" else none
  if truthyO v then v else none

/-- The index search for a related entity (lines 270–305): candidate keys
optionally narrowed by the relationship's `GroupType`, then the first key
whose title, `$id` or path matches the target entity name. -/
def resolveEntityTarget (index : Option (List (String × Json))) (erdRel : ErdRel) :
    Except String (Option String × Json × List PropEntry × Option Json) := do
  match index with
  | none => pure (none, Json.null, [], none)
  | some idx =>
    let indexKeys := idx.map (·.1)
    let candidates ←
      match erdRel.groupType with
      | some g => do
          let gs ←
            match g with
            | Json.str s => pure (jsToLower s)
            | _ =>
              if g.truthy then
                Except.error "TypeError: toLowerCase is not a function"
              else pure ""
          let filtered := indexKeys.filter fun k =>
            strContains (jsToLower k) ("/" ++ gs ++ "/") || strContains (jsToLower k) gs
          pure (if filtered.length > 0 then filtered else indexKeys)
      | none => pure indexKeys
    let matchKey ← findME (fun key => do
        let keyLower := jsToLower key
        let tl ←
          match (if erdRel.targetEntity.truthy then erdRel.targetEntity else Json.str "") with
          | Json.str s => pure (jsToLower s)
          | _ => Except.error "TypeError: toLowerCase is not a function"
        let v := (jsGetF idx key).getD Json.null
        let t0 : Option Json := if v.truthy then jsGet v "title" else none
        let titleVal : Json := if truthyO t0 then t0.getD Json.null else Json.str ""
        let titleLower ←
          match titleVal with
          | Json.str s => pure (jsToLower s)
          | _ => Except.error "TypeError: toLowerCase is not a function"
        let titleMatch := titleLower == tl
        let i0 : Option Json := if v.truthy then jsGet v "$id" else none
        let idVal : Json := if truthyO i0 then i0.getD Json.null else Json.str ""
        let idLower ←
          match idVal with
          | Json.str s => pure (jsToLower s)
          | _ => Except.error "TypeError: toLowerCase is not a function"
        let idMatch := strContains idLower ("--" ++ tl)
        let teStr ←
          match erdRel.targetEntity with
          | Json.str s => pure s
          | _ =>
            if erdRel.targetEntity.truthy then
              Except.error "TypeError: replace is not a function"
            else pure ""
        let fileMatch := strContains keyLower tl
          || strContains keyLower (jsToLower (insertDashes teStr))
        pure (titleMatch || idMatch || fileMatch))
      candidates
    match matchKey with
    | some k => do
        let ts := (jsGetF idx k).getD Json.null
        let props ← collectPropsOnly ts
        pure (some k, ts, props, jsOptChain ts "$id")
    | none => pure (none, Json.null, [], none)

/-- `inferCategory(targetFilePath) || inferCategory(targetSchemaId)`
(line 307): the second lookup is only evaluated when the first is
`undefined`. -/
def entityCategory (fp : Option String) (sid : Option Json) :
    Except String (Option String) := do
  let cat1 ← inferCategory (fp.map Json.str)
  match cat1 with
  | some c => pure (some c)
  | none => inferCategory sid

/-- The related-entity node loop of `buildGraph` (lines 259–327): one node
per normalized `entity::<name>` id, deduplicated by the `seen` accumulator
(the `entityNodes` map), skipping empty target names. -/
def mkEntityNodes (index : Option (List (String × Json))) :
    List ErdRel → List String → Except String (List Node)
  | [], _ => pure []
  | erdRel :: rest, seen =>
    if !erdRel.targetEntity.truthy then mkEntityNodes index rest seen
    else
      -- the `entityId` constant of line 262, written out at each use site
      if normalizeId ("entity::" ++ jsToStr erdRel.targetEntity) ∈ seen then
        mkEntityNodes index rest seen
      else do
        let r ← resolveEntityTarget index erdRel
        let category ← entityCategory r.1 r.2.2.2
        let node : Node :=
          { id := normalizeId ("entity::" ++ jsToStr erdRel.targetEntity),
            position := (400, (seen.length : ℚ) * 200),
            data := { label := erdRel.targetEntity, subtitle := "Related Entity",
                      properties := r.2.2.1, relations := [], erdRelationships := some [],
                      filePath := r.1, schemaId := r.2.2.2,
                      schema := some r.2.1, nodeType := some "related-entity",
                      category := category },
            type := "erd-entity" }
        let restNodes ← mkEntityNodes index rest
          (normalizeId ("entity::" ++ jsToStr erdRel.targetEntity) :: seen)
        pure (node :: restNodes)

/-- The `$ref` index search shared by both ref-node loops (suffix match on
the relative-prefix-stripped path, or on the last path segment). -/
def resolveRefKey (idx : List (String × Json)) (r : String) : Option String :=
  (idx.map (·.1)).find? fun k =>
    strEndsWith k (stripRelPrefixes r)
      || strEndsWith k ("/" ++ (jsSplit '/' r).getLastD "")

/-- Resolution of a `$ref` against the index: properties, file path,
`$id` and schema of the referenced document (all empty when unresolved or
when the index entry is falsy). -/
def resolveRefData (index : Option (List (String × Json))) (r : String) :
    Except String (List PropEntry × Option String × Option Json × Option Json) := do
  match index with
  | none => pure ([], none, none, none)
  | some idx =>
    match resolveRefKey idx r with
    | some k =>
        let ts := (jsGetF idx k).getD Json.null
        if ts.truthy then do
          let props ← collectPropsOnly ts
          pure (props, some k, jsOptChain ts "$id", some ts)
        else pure ([], none, none, none)
    | none => pure ([], none, none, none)

/-- One abstract-schema ref node of the ERD view (the body of the map at
lines 332–378), from the position index and the `$ref` path. -/
def mkErdRefNode (index : Option (List (String × Json))) (ir : Nat × String) :
    Except String Node := do
  let i := ir.1
  let r := ir.2
  let d ← resolveRefData index r
  let (props, fp, sid, sch) := d
  let last := (jsSplit '/' r).getLastD ""
  let lbl0 := jsReplaceFirst last ".json" ""
  let label := if lbl0 ≠ "" then lbl0 else r
  pure ({ id := normalizeId ("ref::" ++ r),
          position := ((-400 : ℚ), (i : ℚ) * 150 + 100),
          data := { label := Json.str label, subtitle := "Abstract Schema",
                    properties := props, relations := [], erdRelationships := some [],
                    filePath := fp, schemaId := sid, schema := sch,
                    nodeType := some "abstract", category := none },
          type := "erd-entity" } : Node)

/-- The abstract-schema ref nodes of the ERD view (lines 332–378): one per
unique `$ref`, with stable `ref::<path>` ids. -/
def mkErdRefNodes (index : Option (List (String × Json))) (refs : List String) :
    Except String (List Node) :=
  mapME (mkErdRefNode index) (dedupFirst refs).enum

/-- Occurrence lookup in the `edgeIdOccurrences` map. -/
def getCount (m : List (String × Nat)) (k : String) : Nat :=
  match m.find? (fun kv => kv.1 == k) with
  | some kv => kv.2
  | none => 0

/-- Occurrence update in the `edgeIdOccurrences` map. -/
def setCount (m : List (String × Nat)) (k : String) (n : Nat) : List (String × Nat) :=
  (k, n) :: m

/-- The ERD relationship edges (lines 386–413): one edge per relationship
whose target-entity node exists, ids disambiguated by an occurrence
counter. -/
def mkErdEdges (mainId : String) (entityIds : List String)
    (counts : List (String × Nat)) : List ErdRel → List Edge
  | [] => []
  | erdRel :: rest =>
    let targetEntityId := normalizeId ("entity::" ++ jsToStr erdRel.targetEntity)
    if targetEntityId ∈ entityIds then
      let baseId := mainId ++ "->erd->" ++ targetEntityId ++ "::"
        ++ normalizeId erdRel.sourceProperty
      let nextCount := getCount counts baseId + 1
      let edgeId := if nextCount > 1 then baseId ++ "#" ++ toString nextCount else baseId
      let label := if erdRel.isConnectable then erdRel.sourceProperty ++ " (connectable)"
        else erdRel.sourceProperty
      ({ id := edgeId, source := mainId, target := targetEntityId,
         data := some { type := some (if erdRel.isConnectable then "connectable"
                          else "erd-relationship"),
                        sourceProperty := some erdRel.sourceProperty,
                        relationshipType := some erdRel.relationshipType,
                        cardinality := some erdRel.cardinality,
                        isConnectable := some erdRel.isConnectable, label := none },
         label := some label, sourceHandle := none, targetHandle := none } : Edge)
        :: mkErdEdges mainId entityIds (setCount counts baseId nextCount) rest
    else mkErdEdges mainId entityIds counts rest

/-- The inheritance edges of the ERD view (lines 416–425). -/
def mkRefEdges (mainId : String) (refs : List String) : List Edge :=
  (dedupFirst refs).map fun r =>
    let refId := normalizeId ("ref::" ++ r)
    { id := mainId ++ "->" ++ refId, source := mainId, target := refId,
      data := some { type := some "inheritance", sourceProperty := none,
                     relationshipType := none, cardinality := none,
                     isConnectable := none, label := none },
      label := some "extends", sourceHandle := none, targetHandle := none }

/-- The main entity node of the ERD view (lines 228–245). -/
def mkErdMainNode (model : SchemaModel) (title id mainId : String)
    (filteredProps : List PropEntry) (filteredRels : List RelEntry)
    (erdRelationships : List ErdRel) : Node :=
  { id := mainId, position := (0, 0),
    data := { label := Json.str title, subtitle := id,
              properties := filteredProps, relations := filteredRels,
              erdRelationships := some erdRelationships,
              filePath := some model.path,
              schemaId := mainSchemaIdOf model.schema,
              schema := some model.schema, nodeType := some "entity",
              category := none },
    type := "erd-entity" }

/-- The ERD branch of `buildGraph` (lines 226–428). -/
def buildErdGraph (model : SchemaModel) (opts : GraphBuildOptions)
    (title id mainId : String) (filteredProps : List PropEntry)
    (filteredRels : List RelEntry) (erdRelationships : List ErdRel)
    (refs : List String) : Except String Graph := do
  let mainNode : Node :=
    mkErdMainNode model title id mainId filteredProps filteredRels erdRelationships
  let entityNodes ← mkEntityNodes opts.index erdRelationships []
  let refNodes ← mkErdRefNodes opts.index refs
  let nodes := mainNode :: (entityNodes ++ refNodes)
  let entityIds := entityNodes.map (·.id)
  let edges := mkErdEdges mainId entityIds [] erdRelationships ++ mkRefEdges mainId refs
  pure ⟨nodes, validateEdges edges nodes⟩

/-- One ref node of the legacy view (the body of the map at lines
520–552). -/
def mkLegacyRefNode (index : Option (List (String × Json))) (ir : Nat × String) :
    Except String Node := do
  let i := ir.1
  let r := ir.2
  let d ← resolveRefData index r
  let (props, fp, sid, sch) := d
  let last := (jsSplit '/' r).getLastD ""
  let label := if last ≠ "" then last else r
  pure ({ id := normalizeId ("ref::" ++ r),
          position := ((0 : ℚ), (i : ℚ) * 100 + 100),
          data := { label := Json.str label, subtitle := r, properties := props,
                    relations := [], erdRelationships := none, filePath := fp,
                    schemaId := sid, schema := sch, nodeType := none,
                    category := none },
          type := "default" } : Node)

/-- The ref nodes of the legacy view (lines 520–552). -/
def mkLegacyRefNodes (index : Option (List (String × Json))) (refs : List String) :
    Except String (List Node) :=
  mapME (mkLegacyRefNode index) (dedupFirst refs).enum

/-- The `$ref` edges of the legacy view (lines 557–566). -/
def mkLegacyRefEdges (mainId : String) (refs : List String) : List Edge :=
  (dedupFirst refs).map fun r =>
    let refId := normalizeId ("ref::" ++ r)
    { id := mainId ++ "->" ++ refId, source := mainId, target := refId,
      data := some { type := some "ref", sourceProperty := none, relationshipType := none,
                     cardinality := none, isConnectable := none, label := none },
      label := none, sourceHandle := none, targetHandle := none }

/-- One node per unique relationship kind in the legacy view
(lines 568–575); these nodes carry no `nodeType`. -/
def mkRelNodes (mainId : String) (uniqueRelKinds : List String) : List Node :=
  uniqueRelKinds.enum.map fun ik =>
    { id := normalizeId (mainId ++ "::rel::" ++ ik.2),
      position := ((300 : ℚ), (ik.1 : ℚ) * 80 + 100),
      data := { label := Json.str ik.2, subtitle := "relationship", properties := [],
                relations := [], erdRelationships := none, filePath := none,
                schemaId := none, schema := none, nodeType := none, category := none },
      type := "default" }

/-- The relationship edges of the legacy view (lines 577–584). -/
def mkRelEdges (mainId : String) (uniqueRelKinds : List String) : List Edge :=
  uniqueRelKinds.enum.map fun ik =>
    { id := mainId ++ "-rel-" ++ toString ik.1, source := mainId,
      target := normalizeId (mainId ++ "::rel::" ++ ik.2),
      data := some { type := some "relationship", sourceProperty := none,
                     relationshipType := none, cardinality := none,
                     isConnectable := none, label := some ik.2 },
      label := none, sourceHandle := none, targetHandle := none }

/-- The main entity node of the legacy view (lines 502–517): note the
absence of `nodeType`, `erdRelationships` and `category`. -/
def mkLegacyMainNode (model : SchemaModel) (mainId title id : String)
    (filteredProps : List PropEntry) (filteredRels : List RelEntry) : Node :=
  { id := mainId, position := (0, 0),
    data := { label := Json.str title, subtitle := id, properties := filteredProps,
              relations := filteredRels, erdRelationships := none,
              filePath := some model.path, schemaId := mainSchemaIdOf model.schema,
              schema := some model.schema, nodeType := none, category := none },
    type := "default" }

/-- `buildOriginalGraph` (lines 491–587). -/
def buildOriginalGraph (model : SchemaModel) (opts : GraphBuildOptions)
    (filteredProps : List PropEntry) (filteredRels : List RelEntry)
    (refs : List String) (mainId title id : String) : Except String Graph := do
  let mainNode : Node := mkLegacyMainNode model mainId title id filteredProps filteredRels
  let refNodes ← mkLegacyRefNodes opts.index refs
  let uniqueRelKinds := dedupFirst (filteredRels.map (·.kind))
  let relNodes := mkRelNodes mainId uniqueRelKinds
  let nodes := mainNode :: (refNodes ++ relNodes)
  let edges := mkLegacyRefEdges mainId refs ++ mkRelEdges mainId uniqueRelKinds
  pure ⟨nodes, validateEdges edges nodes⟩

/-- The property filter of lines 211–215; the description branch is only
evaluated when the name does not match (JavaScript `||`), and throws on a
truthy non-string description. -/
def propFilterPred (filter : String) (p : PropEntry) : Except String Bool := do
  if strContains (jsToLower p.name) filter then pure true
  else
    let d : Json :=
      match p.description with
      | some dv => if dv.truthy then dv else Json.str ""
      | none => Json.str ""
    match d with
    | Json.str s => pure (strContains (jsToLower s) filter)
    | _ => Except.error "TypeError: toLowerCase is not a function"

/-- The relation filter of lines 216–218. -/
def relFilterPred (filter : String) (r : RelEntry) : Bool :=
  strContains (jsToLower r.kind) filter || strContains (jsToLower r.target) filter

/-- `filter ? properties.filter(...) : properties` (lines 211–215). -/
def filterPropsStep (filter : String) (props : List PropEntry) :
    Except String (List PropEntry) :=
  if filter ≠ "" then filterME (propFilterPred filter) props else pure props

/-- `filter ? relations.filter(...) : relations` (lines 216–218). -/
def filterRelsStep (filter : String) (rels : List RelEntry) : List RelEntry :=
  if filter ≠ "" then rels.filter (relFilterPred filter) else rels

/-- `const id = model.id || title`. -/
def idOf (model : SchemaModel) : String :=
  if model.id ≠ "" then model.id else model.title

/-- `const mainId = normalizeId(id)`. -/
def mainIdOf (model : SchemaModel) : String := normalizeId (idOf model)

/-- `buildGraph` (lines 200–428 of `graphBuilder.ts`). -/
def buildGraph (model : SchemaModel) (opts : GraphBuildOptions) : Except String Graph := do
  let filter := jsToLower (jsTrim (opts.filter.getD ""))
  let title := model.title
  let id := idOf model
  let mainId := mainIdOf model
  let cr ← collectFromSchema model.schema
  let erdRelationships ← extractErdRelationships model.schema title
  let filteredProps ← filterPropsStep filter cr.properties
  let filteredRels := filterRelsStep filter cr.relations
  if opts.erdView = some false then
    buildOriginalGraph model opts filteredProps filteredRels cr.refs mainId title id
  else
    buildErdGraph model opts title id mainId filteredProps filteredRels
      erdRelationships cr.refs


/-! ## `layout.ts`: the layout engine -/

def erdNodeWidth : ℚ := 300
def erdNodeHeight : ℚ := 180
def defaultNodeWidth : ℚ := 240
def defaultNodeHeight : ℚ := 80

/-- Bounding-box size by node kind (`getSize` in `resolveCollisions`). -/
def getSize (n : Node) : ℚ × ℚ :=
  if n.type == "erd-entity" then (erdNodeWidth, erdNodeHeight)
  else (defaultNodeWidth, defaultNodeHeight)

/-- `isAnchored`: the main entity stays fixed at the origin. -/
def isAnchored (n : Node) : Bool := n.data.nodeType == some "entity"

/-- `Math.abs` on rationals. -/
def qabs (q : ℚ) : ℚ := if q < 0 then -q else q

/-- `Math.sign` on rationals. -/
def qsign (q : ℚ) : ℚ := if q < 0 then -1 else if 0 < q then 1 else 0

/-- Overwrite the position of the `i`-th node. -/
def updatePos : List Node → Nat → (ℚ × ℚ) → List Node
  | [], _, _ => []
  | n :: rest, 0, p => { n with position := p } :: rest
  | n :: rest, i + 1, p => n :: updatePos rest i p

/-- One `(i, j)` iteration of the inner collision loops of
`resolveCollisions` (lines 24–72 of `layout.ts`). -/
def collidePair (padding : ℚ) (st : List Node × Bool) (i j : Nat) : List Node × Bool :=
  let nodes := st.1
  match nodes[i]?, nodes[j]? with
  | some a, some b =>
    let sa := getSize a
    let sb := getSize b
    let minDx := (sa.1 + sb.1) / 2 + padding
    let minDy := (sa.2 + sb.2) / 2 + padding
    let dx := b.position.1 - a.position.1
    let dy := b.position.2 - a.position.2
    let overlapX := qabs dx < minDx
    let overlapY := qabs dy < minDy
    if overlapX ∧ overlapY then
      let pushX := (minDx - qabs dx) / 2
      let pushY := (minDy - qabs dy) / 2
      let signX := if dx = 0 then (if j % 2 = 0 then (1 : ℚ) else -1) else qsign dx
      let signY := if dy = 0 then (if i % 2 = 0 then (1 : ℚ) else -1) else qsign dy
      if isAnchored a && !isAnchored b then
        (updatePos nodes j
          (b.position.1 + pushX * signX, b.position.2 + pushY * signY), true)
      else if !isAnchored a && isAnchored b then
        (updatePos nodes i
          (a.position.1 - pushX * signX, a.position.2 - pushY * signY), true)
      else
        let n1 := updatePos nodes i
          (a.position.1 - pushX * signX, a.position.2 - pushY * signY)
        (updatePos n1 j
          (b.position.1 + pushX * signX, b.position.2 + pushY * signY), true)
    else st
  | _, _ => st

/-- The inner `j` loop (`j = i+1 .. nodes.length-1`). -/
def collideRow (padding : ℚ) (n i : Nat) (st : List Node × Bool) : List Node × Bool :=
  (List.range' (i + 1) (n - (i + 1))).foldl (fun acc j => collidePair padding acc i j) st

/-- One full pairwise pass, returning the updated nodes and the `moved`
flag. -/
def collidePass (padding : ℚ) (nodes : List Node) : List Node × Bool :=
  (List.range nodes.length).foldl
    (fun acc i => collideRow padding nodes.length i acc) (nodes, false)

/-- The bounded iteration of `resolveCollisions` (up to `k` passes,
stopping early once a pass moves nothing). -/
def resolveIter (padding : ℚ) : Nat → List Node → List Node
  | 0, nodes => nodes
  | k + 1, nodes =>
    let st := collidePass padding nodes
    if st.2 then resolveIter padding k st.1 else st.1

/-- `resolveCollisions` (lines 10–77 of `layout.ts`), 8 iterations. -/
def resolveCollisions (nodes : List Node) (padding : ℚ) : List Node :=
  resolveIter padding 8 nodes

/-- `getEntityConnectionCounts` (lines 144–152) as a lookup function:
edge-degree for the given entities, `0` for unknown ids (the `|| 0` at the
use site). -/
def getEntityConnectionCounts (entities : List Node) (edges : List Edge) :
    String → Nat :=
  fun id0 =>
    if entities.any (fun e => e.id == id0) then
      (edges.filter (fun e => e.source == id0 || e.target == id0)).length
    else 0

/-- Stable insertion for the descending-by-degree sort. -/
def insertByCountDesc (count : String → Nat) (n : Node) : List Node → List Node
  | [] => [n]
  | m :: rest =>
      if count n.id ≥ count m.id then n :: m :: rest
      else m :: insertByCountDesc count n rest

/-- `entities.slice().sort((a, b) => counts[b.id] - counts[a.id])`: the
unique stable descending sort required by the ECMAScript specification. -/
def sortByCountDesc (count : String → Nat) : List Node → List Node
  | [] => []
  | n :: rest => insertByCountDesc count n (sortByCountDesc count rest)

/-- `Math.ceil(Math.sqrt(n))` for natural `n`. -/
def ceilSqrt (n : Nat) : Nat :=
  let s := Nat.sqrt n
  if s * s = n then s else s + 1

/-- `layoutLeftColumns` (lines 155–179): stack the abstract nodes in one or
two columns left of the anchor. -/
def layoutLeftColumns (entities laidOut : List Node)
    (clusterSpacing verticalSpacing nodeSpacing : ℚ) : List Node :=
  if entities.length = 0 then laidOut
  else
    let maxRows := (entities.length + 1) / 2
    let columns := if entities.length > 10 then 2 else 1
    let colWidth := erdNodeWidth + 80
    let startX := -clusterSpacing - (if columns > 1 then colWidth / 2 else 0)
    laidOut ++ entities.enum.map fun inode =>
      let i := inode.1
      let col := if columns = 1 then 0 else i % columns
      let row := if columns = 1 then i else i / columns
      { inode.2 with position :=
          (startX - (Nat.cast col : ℚ) * colWidth,
           ((Nat.cast row : ℚ) - (Nat.cast (maxRows / 2) : ℚ)) * verticalSpacing) }

/-- `layoutRightGrid` (lines 182–206): up-to-3-column grid right of the
anchor. -/
def layoutRightGrid (entities laidOut : List Node)
    (clusterSpacing nodeSpacing verticalSpacing : ℚ) : List Node :=
  if entities.length = 0 then laidOut
  else
    let columns := min 3 (ceilSqrt entities.length)
    let rows := (entities.length + columns - 1) / columns
    let colWidth := erdNodeWidth + 100
    let x0 := clusterSpacing
    laidOut ++ entities.enum.map fun inode =>
      let idx := inode.1
      { inode.2 with position :=
          (x0 + ((Nat.cast (idx % columns) : ℚ)) * colWidth,
           ((Nat.cast (idx / columns) : ℚ) - (Nat.cast (rows / 2) : ℚ)) * verticalSpacing) }

/-- `layoutErdClustered` (lines 106–142): partition nodes by `nodeType`
into main entity / related / abstract — any node outside these three kinds
is dropped, and only the first main entity is kept. -/
def layoutErdClustered (nodes : List Node) (edges : List Edge) :
    List Node × List Edge :=
  let mainEntities := nodes.filter (fun n => n.data.nodeType == some "entity")
  let relatedEntities := nodes.filter (fun n => n.data.nodeType == some "related-entity")
  let abstractEntities := nodes.filter (fun n => n.data.nodeType == some "abstract")
  let clusterSpacing : ℚ := 600
  let nodeSpacing : ℚ := 260
  let verticalSpacing : ℚ := 220
  let laidOut0 : List Node :=
    match mainEntities with
    | mainEntity :: _ => [{ mainEntity with position := (0, 0) }]
    | [] => []
  let laidOut1 := layoutLeftColumns abstractEntities laidOut0
    clusterSpacing verticalSpacing nodeSpacing
  let laidOut2 :=
    if relatedEntities.length > 0 then
      let count := getEntityConnectionCounts relatedEntities edges
      let sortedRelated := sortByCountDesc count relatedEntities
      layoutRightGrid sortedRelated laidOut1 clusterSpacing nodeSpacing verticalSpacing
    else laidOut1
  (resolveCollisions laidOut2 120, edges)

/-- `layoutWithDagre` (lines 80–104).  The positions computed by the
external `dagre` library for the non-ERD branch are abstracted by the
`dagrePos` oracle (the code only reads `g.node(n.id)` back); the node and
edge bookkeeping around it is embedded faithfully. -/
def layoutWithDagre (dagrePos : String → ℚ × ℚ) (nodes : List Node)
    (edges : List Edge) : List Node × List Edge :=
  let isErdView := nodes.any (fun n => n.type == "erd-entity")
  if isErdView then layoutErdClustered nodes edges
  else
    let laidOutNodes := nodes.map fun n =>
      let pos := dagrePos n.id
      { n with position := (pos.1 - defaultNodeWidth / 2, pos.2 - defaultNodeHeight / 2) }
    (resolveCollisions laidOutNodes 80, edges)


/-! ## Generic lemmas about the JavaScript-semantics combinators -/

theorem bind_ok_iff {ε α β : Type} {a : Except ε α} {f : α → Except ε β} {b : β} :
    a >>= f = .ok b ↔ ∃ x, a = .ok x ∧ f x = .ok b := by
  cases a <;> simp [Bind.bind, Except.bind]

theorem pure_ok_iff {ε α : Type} {x b : α} :
    (pure x : Except ε α) = .ok b ↔ x = b := by
  constructor
  · intro h; cases h; rfl
  · intro h; rw [h]; rfl

theorem mapME_ok_forall2 {ε α β : Type} {f : α → Except ε β} :
    ∀ {l : List α} {ys : List β}, mapME f l = .ok ys →
      List.Forall₂ (fun x y => f x = .ok y) l ys := by
  intro l
  induction l with
  | nil =>
      intro ys h
      simp only [mapME] at h
      cases h
      exact .nil
  | cons x xs ih =>
      intro ys h
      simp only [mapME] at h
      rw [bind_ok_iff] at h
      obtain ⟨y, hy, h⟩ := h
      rw [bind_ok_iff] at h
      obtain ⟨ys', hys', h⟩ := h
      rw [pure_ok_iff] at h
      cases h
      exact .cons hy (ih hys')

theorem mapME_isOk {ε α β : Type} {f : α → Except ε β} :
    ∀ {l : List α}, (∀ x ∈ l, (f x).isOk) → (mapME f l).isOk := by
  intro l
  induction l with
  | nil => intro _; rfl
  | cons x xs ih =>
      intro h
      have hx := h x (by simp)
      simp only [mapME]
      cases hfx : f x with
      | error e => rw [hfx] at hx; cases hx
      | ok y =>
          have hrest := ih (fun z hz => h z (by simp [hz]))
          cases hrest' : mapME f xs with
          | error e => rw [hrest'] at hrest; cases hrest
          | ok ys => simp [hfx, hrest', Bind.bind, Except.bind, Except.isOk, Except.toBool, pure, Except.pure]

theorem filterME_isOk {ε α : Type} {p : α → Except ε Bool} :
    ∀ {l : List α}, (∀ x ∈ l, (p x).isOk) → (filterME p l).isOk := by
  intro l
  induction l with
  | nil => intro _; rfl
  | cons x xs ih =>
      intro h
      have hx := h x (by simp)
      simp only [filterME]
      cases hfx : p x with
      | error e => rw [hfx] at hx; cases hx
      | ok b =>
          have hrest := ih (fun z hz => h z (by simp [hz]))
          cases hrest' : filterME p xs with
          | error e => rw [hrest'] at hrest; cases hrest
          | ok ys => simp [hfx, hrest', Bind.bind, Except.bind, Except.isOk, Except.toBool, pure, Except.pure]

theorem dedupFirstAux_nodup {α : Type} [DecidableEq α] :
    ∀ (l : List α) (seen : List α),
      (dedupFirstAux seen l).Nodup ∧ ∀ x ∈ dedupFirstAux seen l, x ∉ seen := by
  intro l
  induction l with
  | nil => intro seen; simp [dedupFirstAux]
  | cons x xs ih =>
      intro seen
      simp only [dedupFirstAux]
      by_cases hx : x ∈ seen
      · simp only [if_pos hx]; exact ih seen
      · simp only [if_neg hx]
        obtain ⟨hnd, hmem⟩ := ih (x :: seen)
        refine ⟨List.nodup_cons.mpr ⟨fun hc => ?_, hnd⟩, ?_⟩
        · exact (hmem x hc) (by simp)
        · intro y hy
          rcases List.mem_cons.mp hy with rfl | hy'
          · exact hx
          · intro hys; exact (hmem y hy') (by simp [hys])

theorem dedupFirst_nodup {α : Type} [DecidableEq α] (l : List α) :
    (dedupFirst l).Nodup :=
  (dedupFirstAux_nodup l []).1


/-! ## Shape of the produced graphs -/

theorem cleanEdge_source (e : Edge) : (cleanEdge e).source = e.source := rfl

theorem cleanEdge_target (e : Edge) : (cleanEdge e).target = e.target := rfl

theorem mem_validateEdges {edges : List Edge} {nodes : List Node} {e : Edge}
    (h : e ∈ validateEdges edges nodes) :
    (∃ e0 ∈ edges, e = cleanEdge e0) ∧
      e.source ∈ nodes.map (·.id) ∧ e.target ∈ nodes.map (·.id) := by
  unfold validateEdges at h
  rw [List.mem_map] at h
  obtain ⟨e0, he0, rfl⟩ := h
  rw [List.mem_filter] at he0
  obtain ⟨hmem, hcond⟩ := he0
  simp only [Bool.and_eq_true] at hcond
  obtain ⟨⟨⟨hs, ht⟩, hcs⟩, hct⟩ := hcond
  refine ⟨⟨e0, hmem, rfl⟩, ?_, ?_⟩
  · rw [cleanEdge_source]
    simpa using hcs
  · rw [cleanEdge_target]
    simpa using hct

theorem buildErdGraph_ok_shape {model : SchemaModel} {opts : GraphBuildOptions}
    {title id mainId : String} {fps : List PropEntry} {frs : List RelEntry}
    {er : List ErdRel} {refs : List String} {g : Graph}
    (h : buildErdGraph model opts title id mainId fps frs er refs = .ok g) :
    ∃ entityNodes refNodes,
      mkEntityNodes opts.index er [] = .ok entityNodes ∧
      mkErdRefNodes opts.index refs = .ok refNodes ∧
      g.nodes = mkErdMainNode model title id mainId fps frs er
        :: (entityNodes ++ refNodes) ∧
      g.edges = validateEdges
        (mkErdEdges mainId (entityNodes.map (·.id)) [] er ++ mkRefEdges mainId refs)
        g.nodes := by
  simp only [buildErdGraph, bind_ok_iff, pure_ok_iff] at h
  obtain ⟨ens, hens, rns, hrns, hg⟩ := h
  exact ⟨ens, rns, hens, hrns, by rw [← hg], by rw [← hg]⟩

theorem buildOriginalGraph_ok_shape {model : SchemaModel} {opts : GraphBuildOptions}
    {fps : List PropEntry} {frs : List RelEntry} {refs : List String}
    {mainId title id : String} {g : Graph}
    (h : buildOriginalGraph model opts fps frs refs mainId title id = .ok g) :
    ∃ refNodes,
      mkLegacyRefNodes opts.index refs = .ok refNodes ∧
      g.nodes = mkLegacyMainNode model mainId title id fps frs
        :: (refNodes ++ mkRelNodes mainId (dedupFirst (frs.map (·.kind)))) ∧
      g.edges = validateEdges
        (mkLegacyRefEdges mainId refs
          ++ mkRelEdges mainId (dedupFirst (frs.map (·.kind)))) g.nodes := by
  simp only [buildOriginalGraph, bind_ok_iff, pure_ok_iff] at h
  obtain ⟨rns, hrns, hg⟩ := h
  exact ⟨rns, hrns, by rw [← hg], by rw [← hg]⟩

theorem buildGraph_ok_shape {m : SchemaModel} {o : GraphBuildOptions} {g : Graph}
    (h : buildGraph m o = .ok g) :
    ∃ cr er fps,
      collectFromSchema m.schema = .ok cr ∧
      extractErdRelationships m.schema m.title = .ok er ∧
      (let filter := jsToLower (jsTrim (o.filter.getD ""))
       let frs := filterRelsStep filter cr.relations
       filterPropsStep filter cr.properties = .ok fps ∧
       (if o.erdView = some false then
          buildOriginalGraph m o fps frs cr.refs (mainIdOf m) m.title (idOf m)
        else
          buildErdGraph m o m.title (idOf m) (mainIdOf m) fps frs er cr.refs) = .ok g) := by
  simp only [buildGraph, bind_ok_iff] at h
  obtain ⟨cr, hcr, er, her, fps, hfps, hbranch⟩ := h
  exact ⟨cr, er, fps, hcr, her, hfps, hbranch⟩


theorem mkErdEdges_source (mid : String) (ids : List String) :
    ∀ (rels : List ErdRel) (counts : List (String × Nat)) (e : Edge),
      e ∈ mkErdEdges mid ids counts rels → e.source = mid := by
  intro rels
  induction rels with
  | nil => intro counts e he; simp [mkErdEdges] at he
  | cons r rest ih =>
      intro counts e he
      rw [mkErdEdges] at he
      split at he
      · rcases List.mem_cons.mp he with rfl | he'
        · rfl
        · exact ih _ e he'
      · exact ih _ e he

theorem mkRefEdges_source (mid : String) (refs : List String) (e : Edge)
    (he : e ∈ mkRefEdges mid refs) : e.source = mid := by
  unfold mkRefEdges at he
  rw [List.mem_map] at he
  obtain ⟨r, _, rfl⟩ := he
  rfl

theorem mkLegacyRefEdges_source (mid : String) (refs : List String) (e : Edge)
    (he : e ∈ mkLegacyRefEdges mid refs) : e.source = mid := by
  unfold mkLegacyRefEdges at he
  rw [List.mem_map] at he
  obtain ⟨r, _, rfl⟩ := he
  rfl

theorem mkRelEdges_source (mid : String) (ks : List String) (e : Edge)
    (he : e ∈ mkRelEdges mid ks) : e.source = mid := by
  unfold mkRelEdges at he
  rw [List.mem_map] at he
  obtain ⟨ik, _, rfl⟩ := he
  rfl

/-- C3: for every graph returned by the extractor — in ERD mode and in
legacy mode — every edge's source and target ids are ids of nodes present
in the returned node set; the final `validateEdges` pass silently drops
any edge that fails this, and the extraction never surfaces such an edge
as an error. -/
theorem buildGraph_edge_validity (m : SchemaModel) (o : GraphBuildOptions) (g : Graph)
    (h : buildGraph m o = .ok g) :
    ∀ e ∈ g.edges, e.source ∈ g.nodes.map (·.id) ∧ e.target ∈ g.nodes.map (·.id) := by
  obtain ⟨cr, er, fps, hcr, her, hfps, hbranch⟩ := buildGraph_ok_shape h
  intro e he
  split at hbranch
  · obtain ⟨rns, _, _, hedges⟩ := buildOriginalGraph_ok_shape hbranch
    rw [hedges] at he
    exact (mem_validateEdges he).2
  · obtain ⟨ens, rns, _, _, _, hedges⟩ := buildErdGraph_ok_shape hbranch
    rw [hedges] at he
    exact (mem_validateEdges he).2

def c3Model : SchemaModel :=
  { id := "W", title := "Well",
    schema := jobj [("properties", jobj [
      ("FacilityConnection", jobj [("x-osdu-relationship",
        jarr [jobj [("GroupType", Json.str "master-data"),
          ("EntityType", Json.str "Facility")]])]),
      ("acl", jobj [("$ref", Json.str "../abstract/AbstractAccessControlList.1.0.0.json")])])],
    path := "/data/master-data/Well.json" }

def c3Opts : GraphBuildOptions := ⟨none, none, none⟩

def c3Graph : Graph := (buildGraph c3Model c3Opts).toOption.getD ⟨[], []⟩

def c3Edge : Edge := c3Graph.edges.headD ⟨"", "", "", none, none, none, none⟩

theorem buildGraph_edge_validity_witness :
    c3Edge ∈ c3Graph.edges ∧
      c3Edge.source ∈ c3Graph.nodes.map (·.id) ∧
      c3Edge.target ∈ c3Graph.nodes.map (·.id) :=
  ⟨by decide, buildGraph_edge_validity c3Model c3Opts c3Graph (by rfl) c3Edge (by decide)⟩

/-- C10: in every produced graph — ERD and legacy mode alike — the source
of every edge is the main entity's id: the graph is a star centred on the
main entity node. -/
theorem buildGraph_edges_star (m : SchemaModel) (o : GraphBuildOptions) (g : Graph)
    (h : buildGraph m o = .ok g) :
    ∀ e ∈ g.edges, e.source = mainIdOf m := by
  obtain ⟨cr, er, fps, hcr, her, hfps, hbranch⟩ := buildGraph_ok_shape h
  intro e he
  split at hbranch
  · obtain ⟨rns, _, _, hedges⟩ := buildOriginalGraph_ok_shape hbranch
    rw [hedges] at he
    obtain ⟨⟨e0, he0, rfl⟩, _, _⟩ := mem_validateEdges he
    rw [cleanEdge_source]
    rcases List.mem_append.mp he0 with h0 | h0
    · exact mkLegacyRefEdges_source _ _ _ h0
    · exact mkRelEdges_source _ _ _ h0
  · obtain ⟨ens, rns, _, _, _, hedges⟩ := buildErdGraph_ok_shape hbranch
    rw [hedges] at he
    obtain ⟨⟨e0, he0, rfl⟩, _, _⟩ := mem_validateEdges he
    rw [cleanEdge_source]
    rcases List.mem_append.mp he0 with h0 | h0
    · exact mkErdEdges_source _ _ _ _ _ h0
    · exact mkRefEdges_source _ _ _ h0

def c10Model : SchemaModel :=
  { id := "T", title := "T",
    schema := jobj [("x-osdu-relationship", jarr [jobj [
      ("GroupType", Json.str "master-data"), ("EntityType", Json.str "Facility")]]),
      ("allOf", jarr [jobj [("$ref", Json.str "osdu/AbstractCommon.json")]])],
    path := "p" }

def c10OptsLegacy : GraphBuildOptions := ⟨none, none, some false⟩

def c10Graph : Graph := (buildGraph c10Model c10OptsLegacy).toOption.getD ⟨[], []⟩

def c10Edge : Edge := c10Graph.edges.headD ⟨"", "", "", none, none, none, none⟩

theorem buildGraph_edges_star_witness :
    c10Edge ∈ c10Graph.edges ∧ c10Edge.source = mainIdOf c10Model :=
  ⟨by decide, buildGraph_edges_star c10Model c10OptsLegacy c10Graph (by rfl) c10Edge (by decide)⟩


/-! ## Node id structure -/

theorem normalizeId_append (a b : String) :
    normalizeId (a ++ b) = normalizeId a ++ normalizeId b := by
  cases a with | mk da =>
  cases b with | mk db =>
  show String.mk (((⟨da⟩ : String) ++ ⟨db⟩).data.map normChar)
    = String.mk (da.map normChar) ++ String.mk (db.map normChar)
  have h1 : ((⟨da⟩ : String) ++ ⟨db⟩) = ⟨da ++ db⟩ := rfl
  have h2 : (String.mk (da.map normChar)) ++ (String.mk (db.map normChar))
      = String.mk (da.map normChar ++ db.map normChar) := rfl
  rw [h1, h2]
  show String.mk ((da ++ db).map normChar) = _
  rw [List.map_append]

theorem normalizeId_entity (s : String) :
    normalizeId ("entity::" ++ s) = "entity::" ++ normalizeId s := by
  rw [normalizeId_append]
  have : normalizeId "entity::" = "entity::" := by decide
  rw [this]

theorem normalizeId_ref (s : String) :
    normalizeId ("ref::" ++ s) = "ref::" ++ normalizeId s := by
  rw [normalizeId_append]
  have : normalizeId "ref::" = "ref::" := by decide
  rw [this]

theorem entity_ne_ref (x y : String) : "entity::" ++ x ≠ "ref::" ++ y := by
  intro h
  cases x with | mk dx =>
  cases y with | mk dy =>
  have h0 : (some 'e' : Option Char) = some 'r' :=
    congrArg (fun t : String => t.data.head?) h
  exact (by decide : (some 'e' : Option Char) ≠ some 'r') h0

theorem dedupFirstAux_subset {α : Type} [DecidableEq α] :
    ∀ (l : List α) (seen : List α) (x : α), x ∈ dedupFirstAux seen l → x ∈ l := by
  intro l
  induction l with
  | nil => intro seen x hx; simp [dedupFirstAux] at hx
  | cons a as ih =>
      intro seen x hx
      simp only [dedupFirstAux] at hx
      by_cases ha : a ∈ seen
      · rw [if_pos ha] at hx
        exact List.mem_cons_of_mem _ (ih seen x hx)
      · rw [if_neg ha] at hx
        rcases List.mem_cons.mp hx with rfl | hx'
        · exact List.mem_cons_self _ _
        · exact List.mem_cons_of_mem _ (ih _ x hx')

theorem dedupFirst_subset {α : Type} [DecidableEq α] {l : List α} {x : α}
    (hx : x ∈ dedupFirst l) : x ∈ l :=
  dedupFirstAux_subset l [] x hx

theorem forall2_map_eq {α β γ : Type} {R : α → β → Prop} {f : α → γ} {g : β → γ} :
    ∀ {l1 : List α} {l2 : List β}, List.Forall₂ R l1 l2 →
      (∀ a b, R a b → g b = f a) → l2.map g = l1.map f := by
  intro l1 l2 h hp
  induction h with
  | nil => rfl
  | cons hab _ ih => simp [hp _ _ hab, ih]

theorem forall2_all {α β : Type} {R : α → β → Prop} {P : β → Prop} :
    ∀ {l1 : List α} {l2 : List β}, List.Forall₂ R l1 l2 →
      (∀ a b, R a b → P b) → ∀ b ∈ l2, P b := by
  intro l1 l2 h hp
  induction h with
  | nil => intro b hb; cases hb
  | cons hab _ ih =>
      intro b hb
      rcases List.mem_cons.mp hb with rfl | hb'
      · exact hp _ _ hab
      · exact ih _ hb'

theorem mkErdRefNode_spec {index : Option (List (String × Json))} {ir : Nat × String}
    {y : Node} (h : mkErdRefNode index ir = .ok y) :
    y.id = normalizeId ("ref::" ++ ir.2) ∧ y.data.nodeType = some "abstract" := by
  simp only [mkErdRefNode, bind_ok_iff, pure_ok_iff] at h
  obtain ⟨d, _, hy⟩ := h
  rw [← hy]
  exact ⟨rfl, rfl⟩

theorem mkLegacyRefNode_spec {index : Option (List (String × Json))} {ir : Nat × String}
    {y : Node} (h : mkLegacyRefNode index ir = .ok y) :
    y.id = normalizeId ("ref::" ++ ir.2) ∧ y.data.nodeType = none := by
  simp only [mkLegacyRefNode, bind_ok_iff, pure_ok_iff] at h
  obtain ⟨d, _, hy⟩ := h
  rw [← hy]
  exact ⟨rfl, rfl⟩

theorem mkErdRefNodes_ids {index : Option (List (String × Json))} {refs : List String}
    {ns : List Node} (h : mkErdRefNodes index refs = .ok ns) :
    ns.map (·.id) = (dedupFirst refs).map (fun r => normalizeId ("ref::" ++ r)) ∧
    ∀ n ∈ ns, n.data.nodeType = some "abstract" := by
  have hf := mapME_ok_forall2 h
  constructor
  · have := forall2_map_eq hf
      (fun ir y hr => (mkErdRefNode_spec hr).1)
    rw [this]
    have henum : ((dedupFirst refs).enum.map fun ir => normalizeId ("ref::" ++ ir.2))
        = ((dedupFirst refs).enum.map Prod.snd).map
            (fun r => normalizeId ("ref::" ++ r)) := by
      rw [List.map_map]; rfl
    rw [henum, List.enum_map_snd]
  · exact forall2_all hf (fun ir y hr => (mkErdRefNode_spec hr).2)

theorem mkLegacyRefNodes_ids {index : Option (List (String × Json))} {refs : List String}
    {ns : List Node} (h : mkLegacyRefNodes index refs = .ok ns) :
    ns.map (·.id) = (dedupFirst refs).map (fun r => normalizeId ("ref::" ++ r)) ∧
    ∀ n ∈ ns, n.data.nodeType = none := by
  have hf := mapME_ok_forall2 h
  constructor
  · have := forall2_map_eq hf
      (fun ir y hr => (mkLegacyRefNode_spec hr).1)
    rw [this]
    have henum : ((dedupFirst refs).enum.map fun ir => normalizeId ("ref::" ++ ir.2))
        = ((dedupFirst refs).enum.map Prod.snd).map
            (fun r => normalizeId ("ref::" ++ r)) := by
      rw [List.map_map]; rfl
    rw [henum, List.enum_map_snd]
  · exact forall2_all hf (fun ir y hr => (mkLegacyRefNode_spec hr).2)

theorem mkEntityNodes_spec {index : Option (List (String × Json))} :
    ∀ (rels : List ErdRel) (seen : List String) (ns : List Node),
      mkEntityNodes index rels seen = .ok ns →
      (ns.map (·.id)).Nodup ∧
      ∀ n ∈ ns, n.id ∉ seen ∧ (∃ s, n.id = "entity::" ++ s) ∧
        n.data.nodeType = some "related-entity" := by
  intro rels
  induction rels with
  | nil =>
      intro seen ns h
      simp only [mkEntityNodes, pure_ok_iff] at h
      cases h
      exact ⟨List.nodup_nil, by intro n hn; cases hn⟩
  | cons erdRel rest ih =>
      intro seen ns h
      rw [mkEntityNodes] at h
      split at h
      · exact ih seen ns h
      · split at h
        · exact ih seen ns h
        · simp only [bind_ok_iff, pure_ok_iff] at h
          obtain ⟨r, hr, category, hcategory, restNodes, hrest, hns⟩ := h
          obtain ⟨hnodup, hmem⟩ := ih _ restNodes hrest
          rw [← hns]
          constructor
          · refine List.nodup_cons.mpr ⟨?_, hnodup⟩
            intro hc
            rw [List.mem_map] at hc
            obtain ⟨n, hn, hid⟩ := hc
            exact (hmem n hn).1 (by rw [hid]; exact List.mem_cons_self _ _)
          · intro n hn
            rcases List.mem_cons.mp hn with rfl | hn'
            · refine ⟨by assumption, ?_, rfl⟩
              exact ⟨normalizeId (jsToStr erdRel.targetEntity),
                normalizeId_entity (jsToStr erdRel.targetEntity)⟩
            · obtain ⟨hseen, hform, htype⟩ := hmem n hn'
              exact ⟨fun hc => hseen (List.mem_cons_of_mem _ hc), hform, htype⟩


theorem mkRelNodes_nodeType (mid : String) (ks : List String) :
    ∀ n ∈ mkRelNodes mid ks, n.data.nodeType = none := by
  intro n hn
  unfold mkRelNodes at hn
  rw [List.mem_map] at hn
  obtain ⟨ik, _, rfl⟩ := hn
  rfl

/-- C5 (amended): in ERD mode the produced node set contains exactly one
node whose `nodeType` is `"entity"`; in legacy mode (`erdView = false`) the
nodes carry no `nodeType` field at all, so no node has `nodeType`
`"entity"`. -/
theorem buildGraph_entity_count (m : SchemaModel) (o : GraphBuildOptions) (g : Graph)
    (h : buildGraph m o = .ok g) :
    g.nodes.countP (fun n => n.data.nodeType == some "entity")
      = (if o.erdView = some false then 0 else 1) := by
  obtain ⟨cr, er, fps, hcr, her, hfps, hbranch⟩ := buildGraph_ok_shape h
  by_cases he : o.erdView = some false
  · rw [if_pos he] at hbranch ⊢
    obtain ⟨rns, hrns, hnodes, _⟩ := buildOriginalGraph_ok_shape hbranch
    rw [hnodes]
    rw [List.countP_cons_of_neg _ _ (by simp [mkLegacyMainNode])]
    rw [List.countP_eq_zero.mpr]
    intro n hn
    rcases List.mem_append.mp hn with h0 | h0
    · have := (mkLegacyRefNodes_ids hrns).2 n h0
      simp [this]
    · have := mkRelNodes_nodeType _ _ n h0
      simp [this]
  · rw [if_neg he] at hbranch ⊢
    obtain ⟨ens, rns, hens, hrns, hnodes, _⟩ := buildErdGraph_ok_shape hbranch
    rw [hnodes]
    rw [List.countP_cons_of_pos _ _ (by simp [mkErdMainNode])]
    rw [List.countP_eq_zero.mpr]
    intro n hn
    rcases List.mem_append.mp hn with h0 | h0
    · have := ((mkEntityNodes_spec _ _ _ hens).2 n h0).2.2
      simp [this]
    · have := (mkErdRefNodes_ids hrns).2 n h0
      simp [this]

def c5wModel : SchemaModel :=
  { id := "W", title := "Well",
    schema := jobj [("properties", jobj [("FacilityConnection",
      jobj [("x-osdu-relationship", jarr [jobj [("GroupType", Json.str "master-data"),
        ("EntityType", Json.str "Facility")]])])])],
    path := "p" }

def c5wOpts : GraphBuildOptions := ⟨none, none, some true⟩

def c5wGraph : Graph := (buildGraph c5wModel c5wOpts).toOption.getD ⟨[], []⟩

theorem buildGraph_entity_count_witness :
    c5wGraph.nodes.countP (fun n => n.data.nodeType == some "entity")
      = (if c5wOpts.erdView = some false then 0 else 1) :=
  buildGraph_entity_count c5wModel c5wOpts c5wGraph (by rfl)

def c5cexModel : SchemaModel := { id := "T", title := "T", schema := jobj [], path := "p" }

def c5cexOpts : GraphBuildOptions := ⟨none, none, some false⟩

/-- C5 counterexample: in legacy mode (`erdView = false`) the claim "the
node set contains exactly one node whose nodeType is `entity`" fails: the
produced graph has zero such nodes, because `buildOriginalGraph` sets no
`nodeType` on any node. -/
theorem buildGraph_entity_count_legacy_cex :
    (buildGraph c5cexModel c5cexOpts).toOption.map
        (fun g => g.nodes.countP (fun n => n.data.nodeType == some "entity")) ≠ some 1 ∧
    (buildGraph c5cexModel c5cexOpts).toOption.map
        (fun g => g.nodes.countP (fun n => n.data.nodeType == some "entity")) = some 0 :=
  ⟨by decide, by decide⟩

/-- C4 (amended): in ERD mode the node ids — the main id, the
`entity::<name>` ids and the `ref::<path>` ids — are pairwise distinct
PROVIDED the normalized main id does not itself take the form
`entity::…`/`ref::…` and distinct collected `$ref` strings have distinct
normalizations; without those provisos duplicate ids are possible (see the
counterexample). -/
theorem buildGraph_node_ids_nodup (m : SchemaModel) (o : GraphBuildOptions)
    (res : CollectResult) (g : Graph)
    (hcol : collectFromSchema m.schema = .ok res)
    (hinj : ∀ r1 ∈ res.refs, ∀ r2 ∈ res.refs,
      normalizeId r1 = normalizeId r2 → r1 = r2)
    (hpre : ∀ s : String, mainIdOf m ≠ "entity::" ++ s ∧ mainIdOf m ≠ "ref::" ++ s)
    (herd : o.erdView ≠ some false)
    (h : buildGraph m o = .ok g) :
    (g.nodes.map (·.id)).Nodup := by
  obtain ⟨cr, er, fps, hcr, her, hfps, hbranch⟩ := buildGraph_ok_shape h
  have hcrres : cr = res := by
    rw [hcol] at hcr
    exact (Except.ok.inj hcr).symm
  subst hcrres
  rw [if_neg herd] at hbranch
  obtain ⟨ens, rns, hens, hrns, hnodes, _⟩ := buildErdGraph_ok_shape hbranch
  obtain ⟨hensNodup, hensMem⟩ := mkEntityNodes_spec _ _ _ hens
  obtain ⟨hrnsIds, _⟩ := mkErdRefNodes_ids hrns
  have hrnsNodup : (rns.map (·.id)).Nodup := by
    rw [hrnsIds]
    refine List.Nodup.map_on ?_ (dedupFirst_nodup _)
    intro r1 h1 r2 h2 heq
    rw [normalizeId_ref, normalizeId_ref] at heq
    have hd := congrArg String.data heq
    rw [String.data_append, String.data_append] at hd
    exact hinj r1 (dedupFirst_subset h1) r2 (dedupFirst_subset h2)
      (String.ext (List.append_cancel_left hd))
  have hrnsForm : ∀ i ∈ rns.map (·.id), ∃ s, i = "ref::" ++ s := by
    intro i hi
    rw [hrnsIds] at hi
    rw [List.mem_map] at hi
    obtain ⟨r, _, rfl⟩ := hi
    exact ⟨normalizeId r, normalizeId_ref r⟩
  have hensForm : ∀ i ∈ ens.map (·.id), ∃ s, i = "entity::" ++ s := by
    intro i hi
    rw [List.mem_map] at hi
    obtain ⟨n, hn, rfl⟩ := hi
    exact (hensMem n hn).2.1
  rw [hnodes]
  simp only [List.map_cons, List.map_append]
  refine List.nodup_cons.mpr ⟨?_, ?_⟩
  · intro hc
    rcases List.mem_append.mp hc with h0 | h0
    · obtain ⟨s, hs⟩ := hensForm _ h0
      exact (hpre s).1 (by simpa [mkErdMainNode] using hs)
    · obtain ⟨s, hs⟩ := hrnsForm _ h0
      exact (hpre s).2 (by simpa [mkErdMainNode] using hs)
  · rw [List.nodup_append]
    refine ⟨hensNodup, hrnsNodup, ?_⟩
    intro i hi1 hi2
    obtain ⟨s1, hs1⟩ := hensForm _ hi1
    obtain ⟨s2, hs2⟩ := hrnsForm _ hi2
    exact entity_ne_ref s1 s2 (hs1 ▸ hs2 ▸ rfl)

def c4cexModel : SchemaModel :=
  { id := "T", title := "T",
    schema := jobj [("allOf", jarr [jobj [("$ref", Json.str "a b")],
      jobj [("$ref", Json.str "a(b")]])],
    path := "p" }

def c4cexOpts : GraphBuildOptions := ⟨none, none, none⟩

/-- C4 counterexample: two distinct `$ref` strings (`"a b"` and `"a(b"`)
normalize to the same id `ref::a_b`, and the ERD graph then contains two
nodes with identical ids — node ids are NOT pairwise distinct for every
input. -/
theorem buildGraph_node_ids_dup_cex :
    (buildGraph c4cexModel c4cexOpts).toOption.map (fun g => g.nodes.map (·.id))
        = some ["T", "ref::a_b", "ref::a_b"] ∧
    ¬ (["T", "ref::a_b", "ref::a_b"] : List String).Nodup :=
  ⟨by decide, by decide⟩

theorem string_short_ne_prefixes (t : String) (ht : t.length < 5) :
    ∀ s : String, t ≠ "entity::" ++ s ∧ t ≠ "ref::" ++ s := by
  intro s
  constructor
  · intro h
    have hl := congrArg String.length h
    rw [String.length_append] at hl
    have h8 : ("entity::" : String).length = 8 := by decide
    omega
  · intro h
    have hl := congrArg String.length h
    rw [String.length_append] at hl
    have h5 : ("ref::" : String).length = 5 := by decide
    omega

def c4wModel : SchemaModel := c5wModel

def c4wRes : CollectResult :=
  (collectFromSchema c4wModel.schema).toOption.getD ⟨[], [], []⟩

def c4wGraph : Graph := (buildGraph c4wModel c5wOpts).toOption.getD ⟨[], []⟩

theorem buildGraph_node_ids_nodup_witness : (c4wGraph.nodes.map (·.id)).Nodup :=
  buildGraph_node_ids_nodup c4wModel c5wOpts c4wRes c4wGraph (by rfl)
    (by decide)
    (by
      intro s
      have hm : mainIdOf c4wModel = "W" := by decide
      rw [hm]
      exact string_short_ne_prefixes "W" (by decide) s)
    (by decide) (by rfl)


/-- C9 (amended): in ERD mode the `filter` option does not change the set
of node ids — it only narrows the property/relation lists carried on the
main entity node's data.  (In legacy mode this fails, see the
counterexample: relationship-kind nodes are derived from the filtered
relation list.) -/
theorem buildGraph_filter_node_ids_erd (m : SchemaModel) (o : GraphBuildOptions)
    (g g' : Graph)
    (herd : o.erdView ≠ some false)
    (h : buildGraph m o = .ok g)
    (h' : buildGraph m { o with filter := none } = .ok g') :
    g.nodes.map (·.id) = g'.nodes.map (·.id) := by
  obtain ⟨cr, er, fps, hcr, her, hfps, hbranch⟩ := buildGraph_ok_shape h
  obtain ⟨cr', er', fps', hcr', her', hfps', hbranch'⟩ := buildGraph_ok_shape h'
  have hcreq : cr' = cr := by rw [hcr] at hcr'; exact (Except.ok.inj hcr').symm
  have hereq : er' = er := by rw [her] at her'; exact (Except.ok.inj her').symm
  subst hcreq; subst hereq
  rw [if_neg herd] at hbranch
  rw [show ({ o with filter := none } : GraphBuildOptions).erdView = o.erdView from rfl,
    if_neg herd] at hbranch'
  obtain ⟨ens, rns, hens, hrns, hnodes, _⟩ := buildErdGraph_ok_shape hbranch
  obtain ⟨ens', rns', hens', hrns', hnodes', _⟩ := buildErdGraph_ok_shape hbranch'
  have hidx : ({ o with filter := none } : GraphBuildOptions).index = o.index := rfl
  rw [hidx] at hens' hrns'
  have henseq : ens' = ens := by rw [hens] at hens'; exact (Except.ok.inj hens').symm
  have hrnseq : rns' = rns := by rw [hrns] at hrns'; exact (Except.ok.inj hrns').symm
  subst henseq; subst hrnseq
  rw [hnodes, hnodes']
  simp [mkErdMainNode]

def c9cexModel : SchemaModel :=
  { id := "T", title := "T",
    schema := jobj [("x-osdu-relationship", jarr [jobj [
      ("GroupType", Json.str "master-data"), ("EntityType", Json.str "Facility")]])],
    path := "p" }

/-- C9 counterexample: in legacy mode the filter does remove graph nodes —
with a filter matching nothing, the relationship-kind node
`T::rel::master-data--Facility` disappears, so the node id sets with and
without the filter differ. -/
theorem buildGraph_filter_node_ids_legacy_cex :
    (buildGraph c9cexModel ⟨some "zzz", none, some false⟩).toOption.map
        (fun g => g.nodes.map (·.id)) = some ["T"] ∧
    (buildGraph c9cexModel ⟨none, none, some false⟩).toOption.map
        (fun g => g.nodes.map (·.id)) = some ["T", "T::rel::master-data--Facility"] ∧
    (some ["T"] : Option (List String)) ≠ some ["T", "T::rel::master-data--Facility"] :=
  ⟨by decide, by decide, by decide⟩

def c9wOpts : GraphBuildOptions := ⟨some "facility", none, none⟩

def c9wGraph : Graph := (buildGraph c5wModel c9wOpts).toOption.getD ⟨[], []⟩

def c9wGraphNoFilter : Graph :=
  (buildGraph c5wModel { c9wOpts with filter := none }).toOption.getD ⟨[], []⟩

theorem buildGraph_filter_node_ids_erd_witness :
    c9wGraph.nodes.map (·.id) = c9wGraphNoFilter.nodes.map (·.id) :=
  buildGraph_filter_node_ids_erd c5wModel c9wOpts c9wGraph c9wGraphNoFilter
    (by decide) (by rfl) (by rfl)


/-! ## C1: relationship classification -/

def c1cexSchema : Json :=
  jobj [("properties", jobj [("ConnectionComponent",
    jobj [("x-osdu-relationship", jarr [jobj [("GroupType", Json.str "master-data"),
      ("EntityType", Json.str "Facility")]])])])]

/-- C1 counterexample: the property `ConnectionComponent` matches the
connection test (its name contains `connect`), yet the extractor classifies
the relationship as `"contains"`, not `"connects to"`: the checks are
consecutive `if`s, not an `else if` chain, so the later component check
overwrites the earlier connection classification (while `isConnectable`
stays `true`). -/
theorem classifyRel_not_exclusive_cex :
    (extractErdRelationships c1cexSchema "T").toOption.map
        (fun l => l.map (fun r => (r.relationshipType, r.isConnectable)))
        = some [("contains", true)] ∧
    (some [("contains", true)] : Option (List (String × Bool)))
        ≠ some [("connects to", true)] :=
  ⟨by decide, by decide⟩

/-- C1 (amended): the classification is a cascade of independent `if`
statements in which the LAST matching check wins — the effective priority
is parent/assembly over component over connection over the default
`"references"` — while `isConnectable` is `true` exactly when the
connection test matches, regardless of the final relationship type. -/
theorem classifyRel_last_match_wins (p t : String) :
    classifyRel p t =
      ((if strContains (jsToLower p) "parent" || strContains (jsToLower p) "assembly" then
          "part of"
        else if strContains (jsToLower t) "component"
            || strContains (jsToLower p) "component" then
          "contains"
        else if strContains (jsToLower p) "connection"
            || strContains (jsToLower t) "connection"
            || strContains (jsToLower p) "connect" then
          "connects to"
        else "references"),
       (strContains (jsToLower p) "connection" || strContains (jsToLower t) "connection"
         || strContains (jsToLower p) "connect")) := by
  unfold classifyRel
  split_ifs <;> simp_all

/-! ## C2: the type-resolution policy -/

def c2Schema : Json :=
  jobj [("properties", jobj [("p",
    jobj [("type", jarr [Json.str "string", Json.str "null"])])])]

/-- C2: a property whose `type` field is the array `["string", "null"]` is
recorded with the raw array as its type — not with the joined string
`"string|null"` — because `v.type || (Array.isArray(v.type) ? …)`
short-circuits on the truthy array and the `join("|")` branch is
unreachable. -/
theorem collect_array_type_raw :
    (collectFromSchema c2Schema).toOption.map (fun res => res.properties.map (·.type))
        = some [some (jarr [Json.str "string", Json.str "null"])] ∧
    (some [some (jarr [Json.str "string", Json.str "null"])] : Option (List (Option Json)))
        ≠ some [some (Json.str "string|null")] :=
  ⟨by decide, by decide⟩

/-- The `Array.isArray(v.type) ? v.type.join("|") : …` branch of the type
resolution is dead code: it is only reached when `v.type` is falsy, and an
array value is always truthy, so an array-valued `type` field is always
returned raw by the first disjunct. -/
theorem propTypeOf_array_raw (v : Json) (xs : JsonArr)
    (h : jsAccess v "type" = .ok (some (Json.arr xs))) :
    propTypeOf v = .ok (some (Json.arr xs)) := by
  unfold propTypeOf
  rw [h]
  simp [Bind.bind, Except.bind, truthyO, Json.truthy, pure, Except.pure]

theorem propTypeOf_array_raw_witness :
    propTypeOf (jobj [("type", jarr [Json.str "string", Json.str "null"])])
      = .ok (some (jarr [Json.str "string", Json.str "null"])) :=
  propTypeOf_array_raw _ (JsonArr.ofList [Json.str "string", Json.str "null"])
    (by decide)


/-! ## C7: required-property detection -/

theorem splitChar_ne_nil (c : Char) : ∀ l : List Char, splitChar c l ≠ [] := by
  intro l
  induction l with
  | nil => simp [splitChar]
  | cons a rest ih =>
      simp only [splitChar]
      split
      · simp
      · split
        · simp
        · simp

theorem splitChar_length (c : Char) :
    ∀ l : List Char, (splitChar c l).length = l.countP (· == c) + 1 := by
  intro l
  induction l with
  | nil => simp [splitChar]
  | cons a rest ih =>
      simp only [splitChar, List.countP_cons]
      split
      · rename_i ha
        simp only [List.length_cons, ih]
        simp [ha]
      · rename_i ha
        have hc : ((a == c) = false) := by simp [ha]
        split
        · rename_i hnil
          exact absurd hnil (splitChar_ne_nil c rest)
        · rename_i h t hcons
          have hlen : (h :: t).length = rest.countP (· == c) + 1 := by
            rw [← hcons, ih]
          simp only [List.length_cons] at hlen ⊢
          simp only [hc, Bool.false_eq_true, if_false]
          omega

theorem jsJoin_single (k : String) : jsJoin '.' [k] = k := by
  cases k with | mk d => rfl

theorem jsSplit_length_join_cons (ph : String) (pt : List String) (k : String) :
    2 ≤ (jsSplit '.' (jsJoin '.' ((ph :: pt) ++ [k]))).length := by
  have hdata : (jsJoin '.' ((ph :: pt) ++ [k])).data
      = ph.data ++ '.' :: joinChar '.' (pt ++ [k]) := by
    cases pt <;> rfl
  unfold jsSplit
  rw [List.length_map, splitChar_length, hdata]
  have hmem : ('.' : Char) ∈ ph.data ++ '.' :: joinChar '.' (pt ++ [k]) := by simp
  have hpos : 0 < List.countP (fun x => x == '.')
      (ph.data ++ '.' :: joinChar '.' (pt ++ [k])) :=
    List.countP_pos_iff.mpr ⟨'.', hmem, by simp⟩
  omega

theorem depth_one_cases (pth : List String) (k : String)
    (h : (jsSplit '.' (jsJoin '.' (pth ++ [k]))).length = 1) :
    pth = [] ∧ jsJoin '.' (pth ++ [k]) = k := by
  cases pth with
  | nil => exact ⟨rfl, jsJoin_single k⟩
  | cons ph pt =>
      have := jsSplit_length_join_cons ph pt k
      omega

/-- The invariant carried by every property entry the collection walk
records: its name is a dotted join of the walk path plus the key, its
depth is the segment count of that name, and its `required` flag is
exactly `depth == 1 && rootRequired.includes(key)`. -/
def PropInv (rootRequired : List Json) (p : PropEntry) : Prop :=
  ∃ pth k, p.name = jsJoin '.' (pth ++ [k]) ∧
    p.depth = some ((jsSplit '.' p.name).length) ∧
    p.required = some (((jsSplit '.' p.name).length == 1)
      && rootRequired.contains (Json.str k))

theorem append_properties (a b : CollectResult) :
    (CollectResult.append a b).properties = a.properties ++ b.properties := rfl

theorem mem_foldr_append_props {parts : List CollectResult} {p : PropEntry} :
    p ∈ (parts.foldr CollectResult.append CollectResult.empty).properties →
      ∃ cr ∈ parts, p ∈ cr.properties := by
  induction parts with
  | nil => intro hp; cases hp
  | cons a rest ih =>
      intro hp
      rw [List.foldr_cons, append_properties] at hp
      rcases List.mem_append.mp hp with h0 | h0
      · exact ⟨a, by simp, h0⟩
      · obtain ⟨cr, hcr, hcrp⟩ := ih h0
        exact ⟨cr, by simp [hcr], hcrp⟩

theorem wcRefPart_props (o : Json) : (wcRefPart o).properties = [] := by
  unfold wcRefPart
  split
  · split <;> rfl
  · rfl

theorem wcRelPart_props {o : Json} {path : List String} {cr : CollectResult}
    (h : wcRelPart o path = .ok cr) : cr.properties = [] := by
  unfold wcRelPart at h
  split at h
  · split at h
    · simp only [bind_ok_iff, pure_ok_iff] at h
      obtain ⟨items, _, rels, _, hcr⟩ := h
      rw [← hcr]
    · cases h; rfl
  · cases h; rfl

theorem wcPropsPart_inv {walkF : Json → List String → Except String CollectResult}
    {rr : List Json} {o : Json} {path : List String} {res : CollectResult}
    (hwalk : ∀ v pth res', walkF v pth = .ok res' →
      ∀ p ∈ res'.properties, PropInv rr p)
    (h : wcPropsPart walkF rr o path = .ok res) :
    ∀ p ∈ res.properties, PropInv rr p := by
  unfold wcPropsPart at h
  split at h
  · split at h
    · simp only [bind_ok_iff, pure_ok_iff] at h
      obtain ⟨parts, hparts, hres⟩ := h
      intro p hp
      rw [← hres] at hp
      obtain ⟨cr, hcrmem, hcrp⟩ := mem_foldr_append_props hp
      have hf := mapME_ok_forall2 hparts
      have hAll : ∀ b ∈ parts, ∀ q ∈ b.properties, PropInv rr q := by
        refine forall2_all hf ?_
        intro kv cr0 hcr0 q hq
        simp only [bind_ok_iff, pure_ok_iff] at hcr0
        obtain ⟨t, _, d, _, sub, hsub, hcr0⟩ := hcr0
        rw [← hcr0, append_properties] at hq
        rcases List.mem_append.mp hq with h0 | h0
        · rcases List.mem_singleton.mp h0 with rfl
          exact ⟨path, kv.1, rfl, rfl, rfl⟩
        · exact hwalk _ _ _ hsub q h0
      exact hAll cr hcrmem p hcrp
    · cases h; intro p hp; cases hp
  · cases h; intro p hp; cases hp

theorem wcComboPart_inv {walkF : Json → List String → Except String CollectResult}
    {rr : List Json} {o : Json} {key : String} {path : List String} {res : CollectResult}
    (hwalk : ∀ v pth res', walkF v pth = .ok res' →
      ∀ p ∈ res'.properties, PropInv rr p)
    (h : wcComboPart walkF o key path = .ok res) :
    ∀ p ∈ res.properties, PropInv rr p := by
  unfold wcComboPart at h
  split at h
  · simp only [bind_ok_iff, pure_ok_iff] at h
    obtain ⟨parts, hparts, hres⟩ := h
    intro p hp
    rw [← hres] at hp
    obtain ⟨cr, hcrmem, hcrp⟩ := mem_foldr_append_props hp
    have hf := mapME_ok_forall2 hparts
    have := forall2_all hf (fun x y hxy => hwalk _ _ _ hxy)
    exact this cr hcrmem p hcrp
  · cases h; intro p hp; cases hp

theorem wcItemsPart_inv {walkF : Json → List String → Except String CollectResult}
    {rr : List Json} {o : Json} {path : List String} {res : CollectResult}
    (hwalk : ∀ v pth res', walkF v pth = .ok res' →
      ∀ p ∈ res'.properties, PropInv rr p)
    (h : wcItemsPart walkF o path = .ok res) :
    ∀ p ∈ res.properties, PropInv rr p := by
  unfold wcItemsPart at h
  split at h
  · split at h
    · exact hwalk _ _ _ h
    · cases h; intro p hp; cases hp
  · cases h; intro p hp; cases hp

theorem wcWalk_prop_inv (rr : List Json) :
    ∀ (fuel : Nat) (o : Json) (path : List String) (res : CollectResult),
      wcWalk rr fuel o path = .ok res → ∀ p ∈ res.properties, PropInv rr p := by
  intro fuel
  induction fuel with
  | zero => intro o path res h; simp [wcWalk] at h
  | succ fuel ih =>
      intro o path res h
      rw [wcWalk] at h
      split at h
      · cases h; intro p hp; cases hp
      · simp only [bind_ok_iff, pure_ok_iff] at h
        obtain ⟨relPart, hrel, propPart, hprop, allPart, hall,
          anyPart, hany, onePart, hone, itemsPart, hitems, hres⟩ := h
        intro p hp
        rw [← hres] at hp
        simp only [append_properties, wcRefPart_props, List.nil_append,
          wcRelPart_props hrel, List.mem_append] at hp
        rcases hp with hp | hp | hp | hp | hp
        · exact wcPropsPart_inv (fun v pth res' hv => ih v pth res' hv) hprop p hp
        · exact wcComboPart_inv (fun v pth res' hv => ih v pth res' hv) hall p hp
        · exact wcComboPart_inv (fun v pth res' hv => ih v pth res' hv) hany p hp
        · exact wcComboPart_inv (fun v pth res' hv => ih v pth res' hv) hone p hp
        · exact wcItemsPart_inv (fun v pth res' hv => ih v pth res' hv) hitems p hp

/-- C7: a recorded property entry is marked `required = true` exactly when
its depth is 1 (its dotted name has a single segment) and its name appears
in the root schema's `required` list; entries of depth ≥ 2 are never
required, whatever the root list contains. -/
theorem collect_required_iff (schema : Json) (res : CollectResult)
    (h : collectFromSchema schema = .ok res) :
    ∀ p ∈ res.properties,
      (p.required = some true ↔
        (p.depth = some 1 ∧
          (rootRequiredOf schema).contains (Json.str p.name) = true)) := by
  intro p hp
  obtain ⟨pth, k, hname, hdepth, hreq⟩ := wcWalk_prop_inv _ _ _ _ _ h p hp
  constructor
  · intro ht
    rw [hreq] at ht
    have hb := Option.some.inj ht
    rw [Bool.and_eq_true] at hb
    obtain ⟨hb1, hb2⟩ := hb
    have hlen : (jsSplit '.' p.name).length = 1 := by
      simpa using hb1
    obtain ⟨hpth, hnk⟩ := depth_one_cases pth k (by rw [← hname]; exact hlen)
    constructor
    · rw [hdepth, hlen]
    · rw [hname, hnk]; exact hb2
  · intro ⟨hd1, hcont⟩
    rw [hdepth] at hd1
    have hlen : (jsSplit '.' p.name).length = 1 := Option.some.inj hd1
    obtain ⟨hpth, hnk⟩ := depth_one_cases pth k (by rw [← hname]; exact hlen)
    rw [hreq, hlen]
    have hk : k = p.name := by rw [hname, hnk]
    rw [hk, hcont]
    simp

def c7wSchema : Json :=
  jobj [("required", jarr [Json.str "id", Json.str "name"]),
    ("properties", jobj [
      ("id", jobj [("type", Json.str "string")]),
      ("name", jobj [("type", Json.str "string")]),
      ("nested", jobj [("type", Json.str "object"),
        ("properties", jobj [("X", jobj [("type", Json.str "string")])])])])]

def c7wRes : CollectResult :=
  (collectFromSchema c7wSchema).toOption.getD ⟨[], [], []⟩

def c7wProp : PropEntry := c7wRes.properties.headD ⟨"", none, none, none, none⟩

theorem collect_required_iff_witness :
    c7wProp ∈ c7wRes.properties ∧
      (c7wProp.required = some true ↔
        (c7wProp.depth = some 1 ∧
          (rootRequiredOf c7wSchema).contains (Json.str c7wProp.name) = true)) :=
  ⟨by decide, collect_required_iff c7wSchema c7wRes (by rfl) c7wProp (by decide)⟩


/-! ## C6: safety of the extraction walks -/

/-- One `x-osdu-relationship` array element is safe: not `null` (reading
`GroupType`/`EntityType` on `null` throws) and, if an `EntityType` field
is present and truthy, it is a string (the direct-property branch calls
`toLowerCase()` on it). -/
def safeXoElem (r : Json) : Bool :=
  match r with
  | Json.null => false
  | Json.obj fs =>
    match jsGetF fs.toList "EntityType" with
    | some v => !v.truthy || (match v with | Json.str _ => true | _ => false)
    | none => true
  | _ => true

/-- The `x-osdu-relationship` field of an object is safe: absent, falsy,
or an array of safe elements (a truthy non-array value would make
`for (const r of rs)` throw). -/
def safeXoField (fs : List (String × Json)) : Bool :=
  match jsGetF fs "x-osdu-relationship" with
  | some v =>
    !v.truthy ||
      (match v with
       | Json.arr xs => xs.toList.all safeXoElem
       | _ => false)
  | none => true

/-- The `properties` field of an object is safe: its entry values are not
`null` (`v.type` on a `null` entry throws in `collectFromSchema`). -/
def safePropsField (fs : List (String × Json)) : Bool :=
  match jsGetF fs "properties" with
  | some (Json.obj pfs) => pfs.toList.all (fun kv => kv.2 ≠ Json.null)
  | some (Json.arr xs) => xs.toList.all (fun x => x ≠ Json.null)
  | _ => true

/-- Hereditary safety of a schema document, with structural fuel: every
object in the tree has a safe `x-osdu-relationship` field and safe
`properties` values. -/
def safeJsonF : Nat → Json → Bool
  | 0, _ => false
  | fuel + 1, o =>
    match o with
    | Json.obj fs => safeXoField fs.toList && safePropsField fs.toList
        && fs.toList.all (fun kv => safeJsonF fuel kv.2)
    | Json.arr xs => xs.toList.all (fun x => safeJsonF fuel x)
    | _ => true

/-- Hereditary safety of a schema document. -/
def safeJson (o : Json) : Bool := safeJsonF (jsize o) o

theorem safeJsonF_mono :
    ∀ (f f' : Nat), f ≤ f' → ∀ (o : Json), safeJsonF f o = true → safeJsonF f' o = true := by
  intro f
  induction f with
  | zero => intro f' _ o h; simp [safeJsonF] at h
  | succ f ih =>
      intro f' hle o h
      cases f' with
      | zero => omega
      | succ f' =>
          cases o with
          | obj fs =>
              rw [safeJsonF] at h ⊢
              simp only [Bool.and_eq_true, List.all_eq_true] at h ⊢
              exact ⟨⟨h.1.1, h.1.2⟩, fun kv hkv => ih f' (by omega) _ (h.2 kv hkv)⟩
          | arr xs =>
              rw [safeJsonF] at h ⊢
              simp only [List.all_eq_true] at h ⊢
              exact fun x hx => ih f' (by omega) _ (h x hx)
          | null => rfl
          | bool b => rfl
          | num n => rfl
          | str s => rfl


theorem isOk_bind {ε α β : Type} {a : Except ε α} {f : α → Except ε β}
    (ha : a.isOk) (hf : ∀ x, a = .ok x → (f x).isOk) : (a >>= f).isOk := by
  cases a with
  | error e => simp [Except.isOk, Except.toBool] at ha
  | ok x => simpa [Bind.bind, Except.bind] using hf x rfl

theorem jsAccess_isOk {v : Json} (k : String) (h : v ≠ Json.null) :
    (jsAccess v k).isOk := by
  cases v
  · exact absurd rfl h
  · rfl
  · rfl
  · rfl
  · rfl
  · rfl

theorem propTypeOf_isOk {v : Json} (h : v ≠ Json.null) : (propTypeOf v).isOk := by
  unfold propTypeOf
  refine isOk_bind (jsAccess_isOk _ h) ?_
  intro t _
  split
  · rfl
  · split
    · rfl
    · refine isOk_bind (jsAccess_isOk _ h) ?_
      intro r _
      split <;> rfl

theorem safeXoElem_ne_null {r : Json} (h : safeXoElem r = true) : r ≠ Json.null := by
  intro hr
  rw [hr] at h
  simp [safeXoElem] at h

theorem safe_obj_elim {fuel : Nat} {fs : JsonObj}
    (h : safeJsonF (fuel + 1) (Json.obj fs) = true) :
    safeXoField fs.toList = true ∧ safePropsField fs.toList = true ∧
      ∀ kv ∈ fs.toList, safeJsonF fuel kv.2 = true := by
  rw [safeJsonF] at h
  simp only [Bool.and_eq_true, List.all_eq_true] at h
  exact ⟨h.1.1, h.1.2, h.2⟩

theorem safe_arr_elim {fuel : Nat} {xs : JsonArr}
    (h : safeJsonF (fuel + 1) (Json.arr xs) = true) :
    ∀ x ∈ xs.toList, safeJsonF fuel x = true := by
  rw [safeJsonF] at h
  simp only [List.all_eq_true] at h
  exact h

theorem safe_elements {fuel : Nat} {xs : JsonArr}
    (h : safeJsonF fuel (Json.arr xs) = true) :
    ∀ x ∈ xs.toList, safeJsonF fuel x = true := by
  cases fuel with
  | zero => simp [safeJsonF] at h
  | succ f =>
      intro x hx
      exact safeJsonF_mono f (f + 1) (by omega) x (safe_arr_elim h x hx)

theorem safe_fields {fuel : Nat} {fs : JsonObj}
    (h : safeJsonF fuel (Json.obj fs) = true) :
    ∀ kv ∈ fs.toList, safeJsonF fuel kv.2 = true := by
  cases fuel with
  | zero => simp [safeJsonF] at h
  | succ f =>
      intro kv hkv
      exact safeJsonF_mono f (f + 1) (by omega) _ ((safe_obj_elim h).2.2 kv hkv)

theorem jsGetF_mem {fs : List (String × Json)} {k : String} {v : Json}
    (h : jsGetF fs k = some v) : ∃ kv ∈ fs, kv.2 = v := by
  unfold jsGetF at h
  split at h
  · rename_i kv hkv
    exact ⟨kv, List.mem_of_find?_eq_some hkv, Option.some.inj h⟩
  · cases h

theorem jsGet_obj_safe_child {fuel : Nat} {fs : JsonObj} {k : String} {v : Json}
    (hsafe : safeJsonF fuel (Json.obj fs) = true)
    (h : jsGet (Json.obj fs) k = some v) : safeJsonF fuel v = true := by
  obtain ⟨kv, hkv, rfl⟩ := jsGetF_mem h
  exact safe_fields hsafe kv hkv

theorem safe_entries {fuel : Nat} {p : Json}
    (h : safeJsonF fuel p = true) :
    ∀ kv ∈ jsEntries p, safeJsonF fuel kv.2 = true := by
  intro kv hkv
  cases p with
  | obj pfs => exact safe_fields h kv hkv
  | arr xs =>
      simp only [jsEntries, List.mem_map] at hkv
      obtain ⟨⟨i, x⟩, hmem, rfl⟩ := hkv
      exact safe_elements h x
        (List.getElem?_mem (List.mk_mem_enum_iff_getElem?.mp hmem))
  | null => cases hkv
  | bool b => cases hkv
  | num n => cases hkv
  | str s => cases hkv

theorem safePropsField_entries {fs : List (String × Json)} {p : Json}
    (hsafe : safePropsField fs = true)
    (h : jsGetF fs "properties" = some p) :
    ∀ kv ∈ jsEntries p, kv.2 ≠ Json.null := by
  intro kv hkv
  unfold safePropsField at hsafe
  rw [h] at hsafe
  cases p with
  | obj pfs =>
      simp only [List.all_eq_true] at hsafe
      exact fun hn => by simpa [hn] using hsafe kv hkv
  | arr xs =>
      simp only [jsEntries, List.mem_map] at hkv
      obtain ⟨⟨i, x⟩, hmem, rfl⟩ := hkv
      simp only [List.all_eq_true] at hsafe
      have hx : x ≠ Json.null := by
        simpa using hsafe x (List.getElem?_mem (List.mk_mem_enum_iff_getElem?.mp hmem))
      exact hx
  | null => cases hkv
  | bool b => cases hkv
  | num n => cases hkv
  | str s => cases hkv

theorem wcRelPart_isOk {o : Json} {path : List String}
    (hsafe : ∀ fs, o = Json.obj fs → safeXoField fs.toList = true) :
    (wcRelPart o path).isOk := by
  unfold wcRelPart
  cases o with
  | obj fs =>
      have hs := hsafe fs rfl
      unfold safeXoField at hs
      cases hxo : jsGetF fs.toList "x-osdu-relationship" with
      | none => simp only [jsGet, hxo]; rfl
      | some v =>
          rw [hxo] at hs
          simp only [jsGet, hxo]
          split
          · rename_i htr
            cases v with
            | arr xs =>
                simp only [Bool.or_eq_true] at hs
                rcases hs with hs | hs
                · simp [Json.truthy] at hs
                · refine isOk_bind (by rfl) ?_
                  intro items hitems
                  refine isOk_bind (mapME_isOk ?_) ?_
                  · intro r hr
                    have hrsafe : safeXoElem r = true := by
                      simp only [List.all_eq_true] at hs
                      have : items = xs.toList := by
                        simpa [jsIterate] using hitems.symm
                      exact hs r (by rw [← this]; exact hr)
                    refine isOk_bind (jsAccess_isOk _ (safeXoElem_ne_null hrsafe)) ?_
                    intro g _
                    refine isOk_bind (jsAccess_isOk _ (safeXoElem_ne_null hrsafe)) ?_
                    intro e _
                    rfl
                  · intro rels _
                    rfl
            | null => simp [Json.truthy] at htr
            | bool b =>
                rcases (Bool.or_eq_true _ _).mp hs with hs | hs
                · rw [htr] at hs; cases hs
                · cases hs
            | num n =>
                rcases (Bool.or_eq_true _ _).mp hs with hs | hs
                · rw [htr] at hs; cases hs
                · cases hs
            | str s =>
                rcases (Bool.or_eq_true _ _).mp hs with hs | hs
                · rw [htr] at hs; cases hs
                · cases hs
            | obj gs =>
                rcases (Bool.or_eq_true _ _).mp hs with hs | hs
                · rw [htr] at hs; cases hs
                · cases hs
          · rfl
  | arr xs => rfl
  | null => rfl
  | bool b => rfl
  | num n => rfl
  | str s => rfl


theorem wcPropsPart_isOk {walkF : Json → List String → Except String CollectResult}
    {rr : List Json} {o : Json} {path : List String}
    (hprops : ∀ fs, o = Json.obj fs → safePropsField fs.toList = true)
    (hwalk : ∀ fs p, o = Json.obj fs → jsGetF fs.toList "properties" = some p →
      ∀ kv ∈ jsEntries p, (walkF kv.2 (path ++ [kv.1])).isOk) :
    (wcPropsPart walkF rr o path).isOk := by
  unfold wcPropsPart
  cases o with
  | obj fs =>
      cases hp : jsGetF fs.toList "properties" with
      | none => simp only [jsGet, hp]; rfl
      | some p =>
          simp only [jsGet, hp]
          split
          · refine isOk_bind (mapME_isOk ?_) ?_
            · intro kv hkv
              have hnn : kv.2 ≠ Json.null :=
                safePropsField_entries (hprops fs rfl) hp kv hkv
              refine isOk_bind (propTypeOf_isOk hnn) ?_
              intro t _
              refine isOk_bind (jsAccess_isOk _ hnn) ?_
              intro d _
              refine isOk_bind (hwalk fs p rfl hp kv hkv) ?_
              intro sub _
              rfl
            · intro parts _
              rfl
          · rfl
  | arr xs => rfl
  | null => rfl
  | bool b => rfl
  | num n => rfl
  | str s => rfl

theorem wcComboPart_isOk {walkF : Json → List String → Except String CollectResult}
    {o : Json} {key : String} {path : List String}
    (hwalk : ∀ xs, jsGet o key = some (Json.arr xs) →
      ∀ x ∈ xs.toList, (walkF x path).isOk) :
    (wcComboPart walkF o key path).isOk := by
  unfold wcComboPart
  split
  · rename_i xs hxs
    refine isOk_bind (mapME_isOk ?_) ?_
    · intro x hx
      exact hwalk xs hxs x hx
    · intro parts _
      rfl
  · rfl

theorem wcItemsPart_isOk {walkF : Json → List String → Except String CollectResult}
    {o : Json} {path : List String}
    (hwalk : ∀ it, jsGet o "items" = some it → it.truthy = true →
      (walkF it path).isOk) :
    (wcItemsPart walkF o path).isOk := by
  unfold wcItemsPart
  split
  · rename_i it hit
    split
    · rename_i htr
      exact hwalk it hit htr
    · rfl
  · rfl

theorem wcWalk_isOk (rr : List Json) :
    ∀ (fuel : Nat) (o : Json) (path : List String),
      safeJsonF fuel o = true → (wcWalk rr fuel o path).isOk := by
  intro fuel
  induction fuel with
  | zero => intro o path h; simp [safeJsonF] at h
  | succ fuel ih =>
      intro o path h
      rw [wcWalk]
      split
      · rfl
      · rename_i hwalkable
        have hchild : ∀ k v, jsGet o k = some v → safeJsonF fuel v = true := by
          intro k v hv
          cases o with
          | obj fs =>
              obtain ⟨kv, hkv, rfl⟩ := jsGetF_mem hv
              exact (safe_obj_elim h).2.2 kv hkv
          | arr xs => cases hv
          | null => cases hv
          | bool b => cases hv
          | num n => cases hv
          | str s => cases hv
        refine isOk_bind (wcRelPart_isOk ?_) ?_
        · intro fs hfs
          subst hfs
          exact (safe_obj_elim h).1
        intro relPart _
        refine isOk_bind (wcPropsPart_isOk ?_ ?_) ?_
        · intro fs hfs
          subst hfs
          exact (safe_obj_elim h).2.1
        · intro fs p hfs hp kv hkv
          subst hfs
          have hpsafe : safeJsonF fuel p = true := hchild "properties" p (by simp [jsGet, hp])
          exact ih kv.2 (path ++ [kv.1]) (safe_entries hpsafe kv hkv)
        intro propPart _
        refine isOk_bind (wcComboPart_isOk ?_) ?_
        · intro xs hxs x hx
          exact ih x path (safe_elements (hchild "allOf" _ hxs) x hx)
        intro allPart _
        refine isOk_bind (wcComboPart_isOk ?_) ?_
        · intro xs hxs x hx
          exact ih x path (safe_elements (hchild "anyOf" _ hxs) x hx)
        intro anyPart _
        refine isOk_bind (wcComboPart_isOk ?_) ?_
        · intro xs hxs x hx
          exact ih x path (safe_elements (hchild "oneOf" _ hxs) x hx)
        intro onePart _
        refine isOk_bind (wcItemsPart_isOk ?_) ?_
        · intro it hit _
          exact ih it path (hchild "items" it hit)
        intro itemsPart _
        rfl


theorem safeXoElem_entity_str {r : Json} (h : safeXoElem r = true) :
    ∀ e, jsAccess r "EntityType" = .ok e → truthyO e = true →
      ∃ s, e = some (Json.str s) := by
  intro e he htr
  cases r with
  | null => simp [safeXoElem] at h
  | obj fs =>
      simp only [jsAccess] at he
      have he' : jsGetF fs.toList "EntityType" = e := Option.some.inj (by
        exact congrArg (fun x => match x with | Except.ok v => some v | _ => none) he)
      have h2 : (match jsGetF fs.toList "EntityType" with
          | some v => !v.truthy || (match v with | Json.str _ => true | _ => false)
          | none => true) = true := h
      rw [he'] at h2
      cases e with
      | none => cases htr
      | some v =>
          simp only [Bool.or_eq_true] at h2
          rcases h2 with h | h
          · rw [truthyO] at htr
            rw [htr] at h
            cases h
          · cases v with
            | str s => exact ⟨s, rfl⟩
            | null => cases h
            | bool b => cases h
            | num n => cases h
            | arr xs => cases h
            | obj gs => cases h
  | bool b =>
      simp only [jsAccess] at he
      cases he
      cases htr
  | num n =>
      simp only [jsAccess] at he
      cases he
      cases htr
  | str s =>
      simp only [jsAccess] at he
      cases he
      cases htr
  | arr xs =>
      simp only [jsAccess] at he
      cases he
      cases htr

theorem ewPart1_isOk {o : Json} {path : List String}
    (hsafe : ∀ fs, o = Json.obj fs → safeXoField fs.toList = true) :
    (ewPart1 o path).isOk := by
  unfold ewPart1
  cases o with
  | obj fs =>
      have hs := hsafe fs rfl
      unfold safeXoField at hs
      cases hxo : jsGetF fs.toList "x-osdu-relationship" with
      | none => simp only [jsGet, hxo]; rfl
      | some v =>
          rw [hxo] at hs
          simp only [jsGet, hxo]
          split
          · rename_i htr
            rw [Bool.and_eq_true] at htr
            cases v with
            | arr xs =>
                simp only [Bool.or_eq_true] at hs
                rcases hs with hs | hs
                · simp [Json.truthy] at hs
                · refine isOk_bind (by rfl) ?_
                  intro items hitems
                  have hitems' : items = xs.toList := by
                    simpa [jsIterate] using hitems.symm
                  refine mapME_isOk ?_
                  intro r hr
                  have hrsafe : safeXoElem r = true := by
                    simp only [List.all_eq_true] at hs
                    exact hs r (by rw [← hitems']; exact hr)
                  have hrnn := safeXoElem_ne_null hrsafe
                  refine isOk_bind (jsAccess_isOk _ hrnn) ?_
                  intro e he
                  refine isOk_bind (jsAccess_isOk _ hrnn) ?_
                  intro g _
                  by_cases htre : truthyO e = true
                  · obtain ⟨s, rfl⟩ := safeXoElem_entity_str hrsafe e he htre
                    rw [if_pos htre]
                    rfl
                  · rw [if_neg htre]
                    rfl
            | null => simp [Json.truthy] at htr
            | bool b =>
                rcases (Bool.or_eq_true _ _).mp hs with hs | hs
                · rw [htr.1] at hs; cases hs
                · cases hs
            | num n =>
                rcases (Bool.or_eq_true _ _).mp hs with hs | hs
                · rw [htr.1] at hs; cases hs
                · cases hs
            | str s =>
                rcases (Bool.or_eq_true _ _).mp hs with hs | hs
                · rw [htr.1] at hs; cases hs
                · cases hs
            | obj gs =>
                rcases (Bool.or_eq_true _ _).mp hs with hs | hs
                · rw [htr.1] at hs; cases hs
                · cases hs
          · rfl
  | arr xs => rfl
  | null => rfl
  | bool b => rfl
  | num n => rfl
  | str s => rfl

theorem ewPart2_isOk {o : Json} {path : List String}
    (hsafeIt : ∀ it fs, jsGet o "items" = some it → it = Json.obj fs →
      safeXoField fs.toList = true) :
    (ewPart2 o path).isOk := by
  unfold ewPart2
  split
  · rename_i it hit
    split
    · split
      · rename_i xo hxo
        split
        · rename_i htr
          lift_lets
          extract_lets propertyName pl
          split
          · cases it with
            | obj gs =>
                have hs := hsafeIt (Json.obj gs) gs hit rfl
                have hxo' : jsGetF gs.toList "x-osdu-relationship" = some xo := by
                  simpa [jsGet] using hxo
                unfold safeXoField at hs
                rw [hxo'] at hs
                simp only [Bool.or_eq_true] at hs
                cases xo with
                | arr xs =>
                    rcases hs with hs | hs
                    · simp [Json.truthy] at hs
                    · refine isOk_bind (by rfl) ?_
                      intro items2 hitems2
                      have hitems' : items2 = xs.toList := by
                        simpa [jsIterate] using hitems2.symm
                      refine mapME_isOk ?_
                      intro r hr
                      have hrsafe : safeXoElem r = true := by
                        simp only [List.all_eq_true] at hs
                        exact hs r (by rw [← hitems']; exact hr)
                      have hrnn := safeXoElem_ne_null hrsafe
                      refine isOk_bind (jsAccess_isOk _ hrnn) ?_
                      intro e _
                      refine isOk_bind (jsAccess_isOk _ hrnn) ?_
                      intro g _
                      rfl
                | null =>
                    rcases hs with hs | hs
                    · rw [htr] at hs; cases hs
                    · cases hs
                | bool b =>
                    rcases hs with hs | hs
                    · rw [htr] at hs; cases hs
                    · cases hs
                | num n =>
                    rcases hs with hs | hs
                    · rw [htr] at hs; cases hs
                    · cases hs
                | str s =>
                    rcases hs with hs | hs
                    · rw [htr] at hs; cases hs
                    · cases hs
                | obj gs2 =>
                    rcases hs with hs | hs
                    · rw [htr] at hs; cases hs
                    · cases hs
            | arr xs => simp [jsGet] at hxo
            | null => simp [jsGet] at hxo
            | bool b => simp [jsGet] at hxo
            | num n => simp [jsGet] at hxo
            | str s => simp [jsGet] at hxo
          · rfl
        · lift_lets
          extract_lets propertyName pl
          split
          · rfl
          · rfl
      · lift_lets
        extract_lets propertyName pl
        split
        · rfl
        · rfl
    · rfl
  · rfl

theorem ewPropsPart_isOk {walkF : Json → List String → Except String (List ErdRel)}
    {o : Json} {path : List String}
    (hwalk : ∀ fs p, o = Json.obj fs → jsGetF fs.toList "properties" = some p →
      ∀ kv ∈ jsEntries p, (walkF kv.2 (path ++ [kv.1])).isOk) :
    (ewPropsPart walkF o path).isOk := by
  unfold ewPropsPart
  cases o with
  | obj fs =>
      cases hp : jsGetF fs.toList "properties" with
      | none => simp only [jsGet, hp]; rfl
      | some p =>
          simp only [jsGet, hp]
          split
          · refine isOk_bind (mapME_isOk ?_) ?_
            · intro kv hkv
              exact hwalk fs p rfl hp kv hkv
            · intro parts _
              rfl
          · rfl
  | arr xs => rfl
  | null => rfl
  | bool b => rfl
  | num n => rfl
  | str s => rfl

theorem ewComboPart_isOk {walkF : Json → List String → Except String (List ErdRel)}
    {o : Json} {key : String} {path : List String}
    (hwalk : ∀ xs, jsGet o key = some (Json.arr xs) →
      ∀ x ∈ xs.toList, (walkF x path).isOk) :
    (ewComboPart walkF o key path).isOk := by
  unfold ewComboPart
  split
  · rename_i xs hxs
    refine isOk_bind (mapME_isOk ?_) ?_
    · intro x hx
      exact hwalk xs hxs x hx
    · intro parts _
      rfl
  · rfl

theorem ewItemsPart_isOk {walkF : Json → List String → Except String (List ErdRel)}
    {o : Json} {path : List String}
    (hwalk : ∀ it, jsGet o "items" = some it → it.truthy = true →
      (walkF it path).isOk) :
    (ewItemsPart walkF o path).isOk := by
  unfold ewItemsPart
  split
  · rename_i it hit
    split
    · rename_i htr
      exact hwalk it hit htr
    · rfl
  · rfl

theorem ewWalk_isOk :
    ∀ (fuel : Nat) (o : Json) (path : List String),
      safeJsonF fuel o = true → (ewWalk fuel o path).isOk := by
  intro fuel
  induction fuel with
  | zero => intro o path h; simp [safeJsonF] at h
  | succ fuel ih =>
      intro o path h
      rw [ewWalk]
      split
      · rfl
      · have hchild : ∀ k v, jsGet o k = some v → safeJsonF fuel v = true := by
          intro k v hv
          cases o with
          | obj fs =>
              obtain ⟨kv, hkv, rfl⟩ := jsGetF_mem hv
              exact (safe_obj_elim h).2.2 kv hkv
          | arr xs => cases hv
          | null => cases hv
          | bool b => cases hv
          | num n => cases hv
          | str s => cases hv
        refine isOk_bind (ewPart1_isOk ?_) ?_
        · intro fs hfs
          subst hfs
          exact (safe_obj_elim h).1
        intro part1 _
        refine isOk_bind (ewPart2_isOk ?_) ?_
        · intro it gs hit hgs
          have hsafeIt := hchild "items" it hit
          subst hgs
          cases fuel with
          | zero => simp [safeJsonF] at hsafeIt
          | succ f => exact (safe_obj_elim hsafeIt).1
        intro part2 _
        refine isOk_bind (ewPropsPart_isOk ?_) ?_
        · intro fs p hfs hp kv hkv
          subst hfs
          have hpsafe : safeJsonF fuel p = true :=
            hchild "properties" p (by simp [jsGet, hp])
          exact ih kv.2 (path ++ [kv.1]) (safe_entries hpsafe kv hkv)
        intro part3 _
        refine isOk_bind (ewComboPart_isOk ?_) ?_
        · intro xs hxs x hx
          exact ih x path (safe_elements (hchild "allOf" _ hxs) x hx)
        intro part4 _
        refine isOk_bind (ewComboPart_isOk ?_) ?_
        · intro xs hxs x hx
          exact ih x path (safe_elements (hchild "anyOf" _ hxs) x hx)
        intro part5 _
        refine isOk_bind (ewComboPart_isOk ?_) ?_
        · intro xs hxs x hx
          exact ih x path (safe_elements (hchild "oneOf" _ hxs) x hx)
        intro part6 _
        refine isOk_bind (ewItemsPart_isOk ?_) ?_
        · intro it hit _
          exact ih it path (hchild "items" it hit)
        intro part7 _
        rfl

/-- C6 (amended): both extraction walks complete without throwing on every
input that is hereditarily safe — every `x-osdu-relationship` value is
absent, falsy, or an array of non-null entries whose truthy `EntityType`
fields are strings, and every `properties`-map value is non-`null`.
Outside this set the walks CAN throw (see the counterexample): anything
else not matching an expected shape is still treated as a leaf. -/
theorem walks_no_throw (schema : Json) (title : String)
    (hsafe : safeJson schema = true) :
    (collectFromSchema schema).isOk = true ∧
      (extractErdRelationships schema title).isOk = true :=
  ⟨wcWalk_isOk (rootRequiredOf schema) (jsize schema) schema [] hsafe,
   ewWalk_isOk (jsize schema) schema [] hsafe⟩

def c6cexSchema : Json :=
  jobj [("properties", jobj [("p", jobj [("x-osdu-relationship", Json.num 1)])])]

def c6cexNullProp : Json :=
  jobj [("properties", jobj [("p", Json.null)])]

/-- C6 counterexample: on a truthy non-array `x-osdu-relationship` value
(`1`), BOTH walks throw (`for (const r of rs)` on a non-iterable), and on
a `null` `properties` value `collectFromSchema` throws at `v.type` (while
the ERD walk treats it as a leaf) — the walks are not total on malformed
extension values. -/
theorem walks_throw_cex :
    (collectFromSchema c6cexSchema).isOk = false ∧
      (extractErdRelationships c6cexSchema "T").isOk = false ∧
      (collectFromSchema c6cexNullProp).isOk = false ∧
      (extractErdRelationships c6cexNullProp "T").isOk = true :=
  ⟨by decide, by decide, by decide, by decide⟩

def c6wSchema : Json :=
  jobj [("required", jarr [Json.str "id"]),
    ("properties", jobj [
      ("id", jobj [("type", Json.str "string")]),
      ("FacilityConnection", jobj [("x-osdu-relationship",
        jarr [jobj [("GroupType", Json.str "master-data"),
          ("EntityType", Json.str "Facility")]])])])]

theorem walks_no_throw_witness :
    (collectFromSchema c6wSchema).isOk = true ∧
      (extractErdRelationships c6wSchema "Well").isOk = true :=
  walks_no_throw c6wSchema "Well" (by decide)


theorem updatePos_map_id (l : List Node) (i : Nat) (p : ℚ × ℚ) :
    (updatePos l i p).map (fun n => n.id) = l.map (fun n => n.id) := by
  induction l generalizing i with
  | nil => rfl
  | cons n rest ih =>
      cases i with
      | zero => rfl
      | succ i => simp only [updatePos, List.map_cons, ih]

theorem collidePair_map_id (padding : ℚ) (st : List Node × Bool) (i j : Nat) :
    (collidePair padding st i j).1.map (fun n => n.id)
      = st.1.map (fun n => n.id) := by
  simp only [collidePair]
  split
  · split
    · split
      · simp [updatePos_map_id]
      · split
        · simp [updatePos_map_id]
        · simp [updatePos_map_id]
    · rfl
  all_goals rfl

theorem foldl_nodes_map_id {β : Type} (f : (List Node × Bool) → β → (List Node × Bool))
    (h : ∀ s b, (f s b).1.map (fun n => n.id) = s.1.map (fun n => n.id)) :
    ∀ (l : List β) (s : List Node × Bool),
      (l.foldl f s).1.map (fun n => n.id) = s.1.map (fun n => n.id) := by
  intro l
  induction l with
  | nil => intro s; rfl
  | cons b rest ih =>
      intro s
      rw [List.foldl_cons, ih, h]

theorem collideRow_map_id (padding : ℚ) (n i : Nat) (st : List Node × Bool) :
    (collideRow padding n i st).1.map (fun m => m.id)
      = st.1.map (fun m => m.id) := by
  unfold collideRow
  exact foldl_nodes_map_id _ (fun s j => collidePair_map_id padding s i j) _ st

theorem collidePass_map_id (padding : ℚ) (nodes : List Node) :
    (collidePass padding nodes).1.map (fun n => n.id)
      = nodes.map (fun n => n.id) := by
  unfold collidePass
  exact foldl_nodes_map_id _
    (fun s i => collideRow_map_id padding nodes.length i s) _ _

theorem resolveIter_map_id (padding : ℚ) (k : Nat) (nodes : List Node) :
    (resolveIter padding k nodes).map (fun n => n.id)
      = nodes.map (fun n => n.id) := by
  induction k generalizing nodes with
  | zero => rfl
  | succ k ih =>
      simp only [resolveIter]
      split
      · rw [ih]
        exact collidePass_map_id padding nodes
      · exact collidePass_map_id padding nodes

theorem resolveCollisions_map_id (nodes : List Node) (padding : ℚ) :
    (resolveCollisions nodes padding).map (fun n => n.id)
      = nodes.map (fun n => n.id) :=
  resolveIter_map_id padding 8 nodes

theorem insertByCountDesc_perm (c : String → Nat) (n : Node) (l : List Node) :
    (insertByCountDesc c n l).Perm (n :: l) := by
  induction l with
  | nil => exact List.Perm.refl _
  | cons m rest ih =>
      unfold insertByCountDesc
      split
      · exact List.Perm.refl _
      · exact (ih.cons m).trans (List.Perm.swap n m rest)

theorem sortByCountDesc_perm (c : String → Nat) (l : List Node) :
    (sortByCountDesc c l).Perm l := by
  induction l with
  | nil => exact List.Perm.refl _
  | cons n rest ih =>
      unfold sortByCountDesc
      exact (insertByCountDesc_perm c n _).trans (ih.cons n)

theorem enum_map_snd_id (l : List Node) (g : Nat × Node → Node)
    (hg : ∀ p, (g p).id = p.2.id) :
    (l.enum.map g).map (fun n => n.id) = l.map (fun n => n.id) := by
  rw [List.map_map]
  have h1 : ((fun n : Node => n.id) ∘ g) = fun p : Nat × Node => p.2.id :=
    funext fun p => hg p
  have h2 : (fun p : Nat × Node => p.2.id)
      = (fun n : Node => n.id) ∘ Prod.snd := rfl
  rw [h1, h2, ← List.map_map, List.enum_map_snd]

theorem layoutLeftColumns_map_id (entities laidOut : List Node)
    (cs vs ns : ℚ) :
    (layoutLeftColumns entities laidOut cs vs ns).map (fun n => n.id)
      = laidOut.map (fun n => n.id) ++ entities.map (fun n => n.id) := by
  simp only [layoutLeftColumns]
  split
  · rename_i h
    rw [List.length_eq_zero.mp h]
    simp
  · rw [List.map_append]
    congr 1
    exact enum_map_snd_id entities _ (fun p => rfl)

theorem layoutRightGrid_map_id (entities laidOut : List Node)
    (cs ns vs : ℚ) :
    (layoutRightGrid entities laidOut cs ns vs).map (fun n => n.id)
      = laidOut.map (fun n => n.id) ++ entities.map (fun n => n.id) := by
  simp only [layoutRightGrid]
  split
  · rename_i h
    rw [List.length_eq_zero.mp h]
    simp
  · rw [List.map_append]
    congr 1
    exact enum_map_snd_id entities _ (fun p => rfl)

theorem layoutErdClustered_ids (nodes : List Node) (edges : List Edge) :
    (layoutErdClustered nodes edges).2 = edges ∧
    ((layoutErdClustered nodes edges).1.map (fun n => n.id)).Perm
      (((nodes.filter (fun n => n.data.nodeType == some "entity")).take 1
          ++ nodes.filter (fun n => n.data.nodeType == some "abstract")
          ++ nodes.filter (fun n => n.data.nodeType == some "related-entity")).map
        (fun n => n.id)) := by
  refine ⟨rfl, ?_⟩
  simp only [layoutErdClustered]
  rw [resolveCollisions_map_id, List.map_append, List.map_append]
  by_cases hrel :
      (nodes.filter (fun n => n.data.nodeType == some "related-entity")).length > 0
  · rw [if_pos hrel, layoutRightGrid_map_id, layoutLeftColumns_map_id]
    refine List.Perm.append (List.Perm.append ?_ (List.Perm.refl _)) ?_
    · cases hm : nodes.filter (fun n => n.data.nodeType == some "entity") with
      | nil => exact List.Perm.refl _
      | cons m ms => exact List.Perm.refl _
    · exact (sortByCountDesc_perm _ _).map _
  · have hC : nodes.filter (fun n => n.data.nodeType == some "related-entity") = [] :=
      List.eq_nil_of_length_eq_zero (by omega)
    rw [if_neg hrel, layoutLeftColumns_map_id, hC]
    simp only [List.map_nil, List.append_nil]
    refine List.Perm.append ?_ (List.Perm.refl _)
    cases hm : nodes.filter (fun n => n.data.nodeType == some "entity") with
    | nil => exact List.Perm.refl _
    | cons m ms => exact List.Perm.refl _

/-- C8 (amended): the layout engine always returns the edge list unchanged,
and in the non-ERD branch it returns the input node identities exactly; but
in the clustered ERD branch (entered as soon as any node has type
`erd-entity`) the output node ids are exactly the first `entity`-kind node
plus the `abstract`- and `related-entity`-kind nodes — any node of another
kind, and every `entity`-kind node after the first, is DROPPED rather than
preserved. -/
theorem layoutWithDagre_contract (dagrePos : String → ℚ × ℚ)
    (nodes : List Node) (edges : List Edge) :
    (layoutWithDagre dagrePos nodes edges).2 = edges ∧
    ((layoutWithDagre dagrePos nodes edges).1.map (fun n => n.id)).Perm
      ((if nodes.any (fun n => n.type == "erd-entity") then
          (nodes.filter (fun n => n.data.nodeType == some "entity")).take 1
            ++ nodes.filter (fun n => n.data.nodeType == some "abstract")
            ++ nodes.filter (fun n => n.data.nodeType == some "related-entity")
        else nodes).map (fun n => n.id)) := by
  by_cases herd : (nodes.any (fun n => n.type == "erd-entity")) = true
  · constructor
    · simp only [layoutWithDagre, if_pos herd]
      exact (layoutErdClustered_ids nodes edges).1
    · simp only [layoutWithDagre, if_pos herd]
      exact (layoutErdClustered_ids nodes edges).2
  · constructor
    · simp only [layoutWithDagre, if_neg herd]
    · simp only [layoutWithDagre, if_neg herd]
      rw [resolveCollisions_map_id, List.map_map]
      exact List.Perm.refl _

def c8Node : Node :=
  { id := "n1", position := (0, 0),
    data := { label := Json.str "n1", subtitle := "", properties := [],
              relations := [], erdRelationships := none, filePath := none,
              schemaId := none, schema := none, nodeType := none,
              category := none },
    type := "erd-entity" }

/-- C8 counterexample: a node whose react-flow `type` is `"erd-entity"`
(which routes layout to the clustered ERD branch) but whose data carries
none of the three recognized `nodeType` kinds is dropped by the layout:
the output node list is empty although the input had one node, refuting
the same-identities contract. -/
theorem layoutWithDagre_drops_node_cex :
    (layoutWithDagre (fun x => ((0 : ℚ), (0 : ℚ))) [c8Node] []).1 = []
      ∧ [c8Node].map (fun n => n.id) = ["n1"] :=
  ⟨rfl, rfl⟩

end OsduViz
